import Mathlib

/-!
Verification development for the marble-world physics simulator
(`code/python/model.py`, driven by `code/python/simulations.py`).

The simulator wraps the external 2D physics library pymunk: `MarbleWorld`
builds a pymunk `Space` containing static rectangular walls and dynamic
circular marbles, schedules per-marble velocity modifications (a delayed
launch impulse and a Gaussian noise perturbation, applied inside each
body's `velocity_func`), records collision/bounce events from pymunk's
collision handlers, samples positions/velocities and a running minimum
squared distance to the exit once per step, and classifies the final
outcome after a fixed-horizon loop.

The embedding below mirrors `model.py` over ℚ.  The parts of the step that
live inside pymunk (collision detection and the contact solver) are not
part of this repository's source; they are abstracted as an oracle
(`PhysOracle`) supplying, per step, the detected contact pairs and the
solved positions/velocities.  Everything the wrapper itself does — the
fixed-horizon loop, the per-body `velocity_func` (`delayed_velocity`), the
event log, path/outcome sampling, and outcome classification — is
translated directly.  Because `gauss` draws from Python's global random
generator, a noise draw `gauss(1, sigma)` is modelled as `1 + sigma * z`
with `z` taken from an oracle stream of standardized draws, and the
class attribute `MarbleWorld.velocity_noise` — which `delayed_velocity`
reads at call time, and which `simulations.noise_vs_failure` mutates — is
passed to `simulate` as the ambient value at simulation time.
-/

namespace MarbleWorld

/-- A 2D vector with rational components (pymunk `Vec2d`). -/
structure Vec2 where
  x : ℚ
  y : ℚ
deriving DecidableEq

/-! World constants, `model.py` lines 15-24. -/

def full_length : ℚ := 800

def full_height : ℚ := 600

def marble_size : ℚ := 60

def speed : ℚ := 200

def step_size : ℚ := 1/50

def time_max : ℚ := 15

/-- `step_max = math.floor(time_max / step_size)`; the quotient is exactly 750. -/
def step_max : ℕ := (Int.floor (time_max / step_size)).toNat

/-- Default value of the class attribute `MarbleWorld.velocity_noise` (0.05).
`delayed_velocity` reads this attribute at call time and
`simulations.noise_vs_failure` reassigns it between runs, so in this model the
ambient value is a parameter of `simulate` rather than a field of the world. -/
def velocity_noise : ℚ := 0.05

/-- `collision_types['static']`. -/
def collision_type_static : ℕ := 0

/-- `collision_types['dynamic']`. -/
def collision_type_dynamic : ℕ := 1

def wall_thickness : ℚ := 20

def exit_portion : ℚ := 1/3

def exit_position : Vec2 := ⟨wall_thickness / 2, full_height / 2⟩

/-- Squared distance from a point to the exit center (`MarbleWorld.exit_dist`). -/
def exit_dist (pos : Vec2) : ℚ :=
  (exit_position.x - pos.x)^2 + (exit_position.y - pos.y)^2

/-- One entry of a wall list (`default_walls` / `extra_walls`). -/
structure WallSpec where
  name : String
  position : Vec2
  length : ℚ
  height : ℚ
  color : String
deriving DecidableEq

/-- `MarbleWorld.default_walls`. -/
def default_walls : List WallSpec :=
  [ ⟨"top_wall", ⟨full_length / 2, full_height - wall_thickness / 2⟩,
      full_length, wall_thickness, "black"⟩,
    ⟨"bottom_wall", ⟨full_length / 2, wall_thickness / 2⟩,
      full_length, wall_thickness, "black"⟩,
    ⟨"top_left_wall", ⟨wall_thickness / 2, full_height * (1 - (1 - exit_portion) / 4)⟩,
      wall_thickness, full_height * (1 - exit_portion) / 2, "black"⟩,
    ⟨"bottom_left_wall", ⟨wall_thickness / 2, full_height * (1 - exit_portion) / 4⟩,
      wall_thickness, full_height * (1 - exit_portion) / 2, "black"⟩,
    ⟨"exit", exit_position, wall_thickness, full_height * exit_portion, "red"⟩ ]

/-- A dynamic body together with its single circle shape (`add_marble` creates
the pair, and the code comments note each body has exactly one shape).  The
fields `launch_velocity`, `delay` and `noisy` record the values captured by the
`delayed_velocity` closure installed as the body's `velocity_func`. -/
structure Body where
  name : String
  position : Vec2
  velocity : Vec2
  angle : ℚ
  radius : ℚ
  elasticity : ℚ
  friction : ℚ
  mass : ℚ
  collision_type : ℕ
  launch_velocity : Vec2
  delay : ℤ
  noisy : ℤ
deriving DecidableEq

/-- A static wall body with its box shape as inserted by `add_wall`. -/
structure StaticShape where
  name : String
  position : Vec2
  length : ℚ
  height : ℚ
  elasticity : ℚ
  collision_type : ℕ
deriving DecidableEq

/-- One recorded collision or wall-bounce event. -/
structure Event where
  objects : String × String
  step : ℕ
deriving DecidableEq

/-- The `self.events` record. -/
structure Events where
  collisions : List Event
  wall_bounces : List Event
  outcome : List (String × Bool)
  outcome_dists : List (String × ℚ)
deriving DecidableEq

/-! Python `dict` operations on association lists (insertion order kept,
assignment to an existing key replaces the value in place). -/

def dictInsert (k : String) (v : α) : List (String × α) → List (String × α)
  | [] => [(k, v)]
  | (k1, v1) :: rest =>
    if k1 = k then (k, v) :: rest else (k1, v1) :: dictInsert k v rest

def dictGet (k : String) : List (String × α) → Option α
  | [] => none
  | (k1, v1) :: rest => if k1 = k then some v1 else dictGet k rest

def dictUpdate (k : String) (f : α → α) : List (String × α) → List (String × α)
  | [] => []
  | (k1, v1) :: rest =>
    if k1 = k then (k1, f v1) :: rest else (k1, v1) :: dictUpdate k f rest

/-- The mutable state of a `MarbleWorld` instance.  `space_bodies` lists the
dynamic bodies in the pymunk space in insertion order; `bodies` and `shapes`
are the `OrderedDict` registries, modelled as maps from name to the index of
the referenced body in `space_bodies` (Python references object identity, so a
replaced registry entry leaves the old body in the space). -/
structure World where
  step : ℕ
  walls : List WallSpec
  space_static : List StaticShape
  space_bodies : List Body
  bodies : List (String × ℕ)
  shapes : List (String × ℕ)
  events : Events
  path_record_bodies : List String
  outcome_record_bodies : List String
deriving DecidableEq

/-- `MarbleWorld.add_wall`: creates a static box body with elasticity 1 and
collision type `static` and inserts it into the space. -/
def add_wall (w : World) (position : Vec2) (length height : ℚ) (name : String) : World :=
  { w with space_static :=
      w.space_static ++ [⟨name, position, length, height, 1, collision_type_static⟩] }

/-- The body (with its circle shape) built by `MarbleWorld.add_marble`: radius
`marble_size/2`, elasticity 1, friction 0, mass 1, collision type `dynamic`,
angle 0, and pymunk's default initial velocity (0, 0) — the configured
`velocity` is only captured by the `delayed_velocity` closure. -/
def mkMarbleBody (position velocity : Vec2) (name : String) (delay noisy : ℤ) : Body :=
  { name := name, position := position, velocity := ⟨0, 0⟩, angle := 0,
    radius := marble_size / 2, elasticity := 1, friction := 0, mass := 1,
    collision_type := collision_type_dynamic,
    launch_velocity := velocity, delay := delay, noisy := noisy }

/-- `MarbleWorld.add_marble`: adds the body and shape to the space and assigns
the registry entries (replacing any previous entry with the same name, while
the previously inserted body stays in the space). -/
def add_marble (w : World) (position velocity : Vec2) (name : String)
    (delay noisy : ℤ) : World :=
  let body := mkMarbleBody position velocity name delay noisy
  { w with
    space_bodies := w.space_bodies ++ [body],
    bodies := dictInsert name w.space_bodies.length w.bodies,
    shapes := dictInsert name w.space_bodies.length w.shapes }

/-- Per-marble configuration as passed in the `marbles` mapping:
`{position, velocity, delay, noisy}`. -/
structure MarbleSpec where
  position : Vec2
  velocity : Vec2
  delay : ℤ
  noisy : ℤ
deriving DecidableEq

/-- `MarbleWorld.__init__`: walls (default plus extra) are inserted except any
wall named `"exit"`, then the marbles are added in mapping order.  The `gate`
argument of the source is ignored by the source and omitted here. -/
def MarbleWorld_init (marbles : List (String × MarbleSpec)) (extra_walls : List WallSpec)
    (path_record_bodies outcome_record_bodies : List String) : World :=
  let walls := default_walls ++ extra_walls
  let w0 : World :=
    { step := 0, walls := walls, space_static := [], space_bodies := [],
      bodies := [], shapes := [], events := ⟨[], [], [], []⟩,
      path_record_bodies := path_record_bodies,
      outcome_record_bodies := outcome_record_bodies }
  let w1 := walls.foldl
    (fun w wall =>
      if wall.name ≠ "exit" then add_wall w wall.position wall.length wall.height wall.name
      else w) w0
  marbles.foldl
    (fun w nm => add_marble w nm.2.position nm.2.velocity nm.1 nm.2.delay nm.2.noisy) w1

/-- `MarbleWorld.__init__` viewed as a fallible constructor: the source
performs no validation of its configuration and contains no raise path, so
construction always returns a world. -/
def MarbleWorld_init_checked (marbles : List (String × MarbleSpec))
    (extra_walls : List WallSpec)
    (path_record_bodies outcome_record_bodies : List String) : Except String World :=
  Except.ok (MarbleWorld_init marbles extra_walls path_record_bodies outcome_record_bodies)

/-- Placeholder body used to totalize registry lookup; `self.bodies[bname]`
in the source assumes the name is registered. -/
def junkBody : Body := mkMarbleBody ⟨0, 0⟩ ⟨0, 0⟩ "" (-1) (-1)

/-- `self.bodies[bname]`: resolve a registry name to the referenced body. -/
def findBody (w : World) (name : String) : Body :=
  match dictGet name w.bodies with
  | some i => w.space_bodies.getD i junkBody
  | none => junkBody

/-! The physics step.  `space.step(dt)` belongs to pymunk, not to this
repository: within one step it integrates positions, detects contacts (firing
the `begin` handlers that append to `self.events`), calls each dynamic body's
`velocity_func` — here always the `delayed_velocity` closure installed by
`add_marble` — and then runs the impulse solver.  Contact detection and the
solver are modelled as an oracle over the bodies' physical state (name,
position, velocity, radius); the `velocity_func` and the event appends, which
are this repository's code, are translated exactly. -/

/-- The physical state of a body as seen by the collision engine. -/
structure PhysView where
  name : String
  position : Vec2
  velocity : Vec2
  radius : ℚ
deriving DecidableEq

def Body.view (b : Body) : PhysView := ⟨b.name, b.position, b.velocity, b.radius⟩

/-- Oracle for the parts of `space.step` internal to pymunk: `detect` yields
the dynamic-dynamic and dynamic-static contact pairs reported to the collision
handlers at a given step, `solve` yields each body's position and velocity
after the contact solver. -/
structure PhysOracle where
  detect : ℕ → List PhysView → List (String × String) × List (String × String)
  solve : ℕ → List PhysView → List (Vec2 × Vec2)

/-- `pymunk.Body.update_velocity` with the space defaults gravity `(0, 0)` and
damping `1`: `v = v * damping + gravity * dt` (no constant force). -/
def update_velocity (gravity : Vec2) (damping dt : ℚ) (v : Vec2) : Vec2 :=
  ⟨v.x * damping + gravity.x * dt, v.y * damping + gravity.y * dt⟩

/-- The launch branch of `delayed_velocity`: if the current step equals the
captured `delay`, apply `body.apply_impulse_at_local_point([x * speed for x in
velocity])`; the marble has mass 1 and angle 0, so the impulse adds
`launch_velocity * speed` to the velocity. -/
def apply_launch_impulse (launch_velocity : Vec2) (delay : ℤ) (step : ℕ) (v : Vec2) : Vec2 :=
  if (step : ℤ) = delay
  then ⟨v.x + launch_velocity.x * speed, v.y + launch_velocity.y * speed⟩
  else v

/-- One draw `gauss(1, sigma)` modelled as `1 + sigma * z` for a standardized
draw `z` from the random stream. -/
def gauss1 (sigma z : ℚ) : ℚ := 1 + sigma * z

/-- The noise branch of `delayed_velocity`: if the current step equals the
captured `noisy`, each velocity component is multiplied by an independent
`gauss(1, velocity_noise)` draw. -/
def apply_velocity_noise (sigma : ℚ) (z : ℚ × ℚ) (noisy : ℤ) (step : ℕ) (v : Vec2) : Vec2 :=
  if (step : ℤ) = noisy
  then ⟨v.x * gauss1 sigma z.1, v.y * gauss1 sigma z.2⟩
  else v

/-- The `delayed_velocity` closure installed by `add_marble` as the body's
`velocity_func` (model.py lines 139-145): default velocity update, then the
launch impulse when `self.step == delay`, then the noise perturbation when
`self.step == noisy`.  `sigma` is the ambient `MarbleWorld.velocity_noise`
at call time. -/
def delayed_velocity (sigma : ℚ) (z : ℚ × ℚ) (launch_velocity : Vec2)
    (delay noisy : ℤ) (step : ℕ) (v : Vec2) : Vec2 :=
  apply_velocity_noise sigma z noisy step
    (apply_launch_impulse launch_velocity delay step
      (update_velocity ⟨0, 0⟩ 1 step_size v))

/-- pymunk's default `position_func`: `p = p + v * dt`. -/
def integrate_position (b : Body) : Body :=
  { b with position :=
      ⟨b.position.x + b.velocity.x * step_size, b.position.y + b.velocity.y * step_size⟩ }

/-- Call every dynamic body's `velocity_func` once, in space order; the noise
stream is indexed by step and body position. -/
def apply_velocity_funcs (sigma : ℚ) (z : ℕ → ℕ → ℚ × ℚ) (step : ℕ) :
    ℕ → List Body → List Body
  | _, [] => []
  | i, b :: bs =>
    { b with velocity :=
        delayed_velocity sigma (z step i) b.launch_velocity b.delay b.noisy step b.velocity }
      :: apply_velocity_funcs sigma z step (i + 1) bs

/-- Write the solver's per-body positions and velocities back into the bodies. -/
def apply_solution : List Body → List (Vec2 × Vec2) → List Body
  | [], _ => []
  | bs, [] => bs
  | b :: bs, pv :: pvs =>
    { b with position := pv.1, velocity := pv.2 } :: apply_solution bs pvs

/-- One `space.step(step_size)` call at loop step `step`: integrate positions,
detect contacts (returned so the caller can log them, as the collision
handlers do), run the velocity funcs, and solve. -/
def space_step (sigma : ℚ) (z : ℕ → ℕ → ℚ × ℚ) (orc : PhysOracle) (step : ℕ)
    (bodies : List Body) :
    List Body × (List (String × String) × List (String × String)) :=
  let b1 := bodies.map integrate_position
  let contacts := orc.detect step (b1.map Body.view)
  let b2 := apply_velocity_funcs sigma z step 0 b1
  let b3 := apply_solution b2 (orc.solve step (b2.map Body.view))
  (b3, contacts)

/-- Per-body trajectory buffers (`paths[bname]`). -/
structure PathRec where
  position : List Vec2
  velocity : List Vec2
deriving DecidableEq

/-- The pre-step sampling of position and velocity for every body on the
recording list (`simulate`, loop head). -/
def record_paths (w : World) (paths : List (String × PathRec)) :
    List (String × PathRec) :=
  w.path_record_bodies.foldl
    (fun acc bname =>
      dictUpdate bname
        (fun r => ⟨r.position ++ [(findBody w bname).position],
                   r.velocity ++ [(findBody w bname).velocity]⟩) acc)
    paths

/-- The pre-step update of the running minimum squared exit distance for every
body on the outcome list (`simulate`, loop head). -/
def update_outcome_dists (w : World) : World :=
  let ds := w.outcome_record_bodies.foldl
    (fun acc bname =>
      let d := exit_dist (findBody w bname).position
      match dictGet bname acc with
      | some cur => if d < cur then dictInsert bname d acc else acc
      | none => acc)
    w.events.outcome_dists
  { w with events := { w.events with outcome_dists := ds } }

/-- The initialization `outcome_dists[bname] = self.full_length**2` performed
before the loop. -/
def init_outcome_dists (w : World) : World :=
  let ds := w.outcome_record_bodies.foldl
    (fun acc bname => dictInsert bname (full_length ^ 2) acc)
    w.events.outcome_dists
  { w with events := { w.events with outcome_dists := ds } }

/-- The classification after the loop: `passed = False` if the final
horizontal position exceeds `-marble_size/2`, else `True`. -/
def classify_outcomes (w : World) : World :=
  let oc := w.outcome_record_bodies.foldl
    (fun acc bname =>
      dictInsert bname
        (if (findBody w bname).position.x > -marble_size / 2 then false else true)
        acc)
    w.events.outcome
  { w with events := { w.events with outcome := oc } }

/-- The `while self.step <= self.step_max` loop of `simulate`: sample paths,
sample outcome distances, advance the space one step (logging the contacts
reported by the collision handlers with the current step index), increment the
step counter.  The loop has no other exit condition; fuel `step_max + 1`
suffices for any world started at step 0. -/
def simulate_loop (sigma : ℚ) (z : ℕ → ℕ → ℚ × ℚ) (orc : PhysOracle) :
    ℕ → World → List (String × PathRec) → World × List (String × PathRec)
  | 0, w, paths => (w, paths)
  | fuel + 1, w, paths =>
    if w.step ≤ step_max then
      let paths1 := record_paths w paths
      let w1 := update_outcome_dists w
      let r := space_step sigma z orc w1.step w1.space_bodies
      let w2 : World :=
        { w1 with
          space_bodies := r.1,
          events := { w1.events with
            collisions :=
              w1.events.collisions ++ r.2.1.map (fun p => ⟨p, w1.step⟩),
            wall_bounces :=
              w1.events.wall_bounces ++ r.2.2.map (fun p => ⟨p, w1.step⟩) },
          step := w1.step + 1 }
      simulate_loop sigma z orc fuel w2 paths1
    else (w, paths)

/-- `MarbleWorld.simulate`, returning the final world state together with the
recorded paths (animation handling is display-only and omitted). -/
def simulate_world (sigma : ℚ) (z : ℕ → ℕ → ℚ × ℚ) (orc : PhysOracle) (w : World) :
    World × List (String × PathRec) :=
  let paths0 := w.path_record_bodies.foldl
    (fun acc bname => dictInsert bname (PathRec.mk [] []) acc) []
  let w0 := init_outcome_dists w
  let r := simulate_loop sigma z orc (step_max + 1) w0 paths0
  (classify_outcomes r.1, r.2)

/-- The observable result of `MarbleWorld.simulate`: `return (self.events, paths)`. -/
def simulate (sigma : ℚ) (z : ℕ → ℕ → ℚ × ℚ) (orc : PhysOracle) (w : World) :
    Events × List (String × PathRec) :=
  ((simulate_world sigma z orc w).1.events, (simulate_world sigma z orc w).2)

/-- The recorded velocity sample of a body at a given step, if any. -/
def sampled_velocity (paths : List (String × PathRec)) (name : String) (s : ℕ) :
    Option Vec2 :=
  match dictGet name paths with
  | some r => r.velocity.get? s
  | none => none

/-! Specification devices used by the theorems below. -/

/-- The static shape `add_wall` inserts for a wall list entry. -/
def wallShape (wl : WallSpec) : StaticShape :=
  ⟨wl.name, wl.position, wl.length, wl.height, 1, collision_type_static⟩

/-- A collision-free oracle: the contact solver leaves every body's position
and velocity unchanged (no collision response occurs). -/
def SolveId (orc : PhysOracle) : Prop :=
  ∀ s vs, orc.solve s vs = vs.map (fun pv => (pv.position, pv.velocity))

/-- A schedule step that can never equal the loop's step counter: negative
(such as the disabling sentinel -1) or beyond the simulated horizon. -/
def OutOfRange (d : ℤ) : Prop := d < 0 ∨ (step_max : ℤ) < d

instance (d : ℤ) : Decidable (OutOfRange d) := by
  unfold OutOfRange; infer_instance

/-- The velocity of a single collision-free marble at the top of loop
iteration `s` (its `velocity_func` has been applied once per previous
iteration; the initial velocity is zero). -/
def velTraj (sigma : ℚ) (z : ℕ → ℕ → ℚ × ℚ) (lv : Vec2) (delay noisy : ℤ) : ℕ → Vec2
  | 0 => ⟨0, 0⟩
  | s + 1 =>
    delayed_velocity sigma (z s 0) lv delay noisy s (velTraj sigma z lv delay noisy s)

/-- The position of a single collision-free marble at the top of loop
iteration `s` (pymunk integrates positions with the velocity of the previous
iteration's velocity update). -/
def posTraj (sigma : ℚ) (z : ℕ → ℕ → ℚ × ℚ) (lv : Vec2) (delay noisy : ℤ)
    (p0 : Vec2) : ℕ → Vec2
  | 0 => p0
  | s + 1 =>
    let p := posTraj sigma z lv delay noisy p0 s
    let v := velTraj sigma z lv delay noisy s
    ⟨p.x + v.x * step_size, p.y + v.y * step_size⟩

/-- The single collision-free marble of `velTraj`/`posTraj` as a body. -/
def singleBodyAt (name : String) (lv : Vec2) (delay noisy : ℤ) (p v : Vec2) : Body :=
  { mkMarbleBody p lv name delay noisy with velocity := v }

/-- Two bodies that agree on every field the simulation can observe at steps
within the horizon: all fields except that the captured `delay` (resp.
`noisy`) may differ when out of range on both sides, in which case the
corresponding branch of `delayed_velocity` never fires; when the noise steps
are in range they must agree and so must the ambient noise deviations. -/
structure BodyEquiv (sigma1 sigma2 : ℚ) (b1 b2 : Body) : Prop where
  name_eq : b1.name = b2.name
  pos_eq : b1.position = b2.position
  vel_eq : b1.velocity = b2.velocity
  angle_eq : b1.angle = b2.angle
  radius_eq : b1.radius = b2.radius
  elas_eq : b1.elasticity = b2.elasticity
  fric_eq : b1.friction = b2.friction
  mass_eq : b1.mass = b2.mass
  ctype_eq : b1.collision_type = b2.collision_type
  launch_eq : b1.launch_velocity = b2.launch_velocity
  delay_cond : b1.delay = b2.delay ∨ (OutOfRange b1.delay ∧ OutOfRange b2.delay)
  noisy_cond : (sigma1 = sigma2 ∧ b1.noisy = b2.noisy)
    ∨ (OutOfRange b1.noisy ∧ OutOfRange b2.noisy)

/-- Two worlds that differ only in schedule data that can never fire (in the
sense of `BodyEquiv`). -/
structure WorldEquiv (sigma1 sigma2 : ℚ) (w1 w2 : World) : Prop where
  step_eq : w1.step = w2.step
  walls_eq : w1.walls = w2.walls
  static_eq : w1.space_static = w2.space_static
  bodies_eq : w1.bodies = w2.bodies
  shapes_eq : w1.shapes = w2.shapes
  events_eq : w1.events = w2.events
  path_rec_eq : w1.path_record_bodies = w2.path_record_bodies
  outcome_rec_eq : w1.outcome_record_bodies = w2.outcome_record_bodies
  space_forall : List.Forall₂ (BodyEquiv sigma1 sigma2) w1.space_bodies w2.space_bodies

/-- Two marble configurations equal except for schedule steps that can never
fire (the marble-spec counterpart of `BodyEquiv`). -/
structure PairEquiv (sigma1 sigma2 : ℚ) (p q : String × MarbleSpec) : Prop where
  name_eq : p.1 = q.1
  pos_eq : p.2.position = q.2.position
  vel_eq : p.2.velocity = q.2.velocity
  delay_cond : p.2.delay = q.2.delay ∨ (OutOfRange p.2.delay ∧ OutOfRange q.2.delay)
  noisy_cond : (sigma1 = sigma2 ∧ p.2.noisy = q.2.noisy)
    ∨ (OutOfRange p.2.noisy ∧ OutOfRange q.2.noisy)

/-! Concrete instances used by witnesses and counterexamples. -/

/-- A physics oracle reporting no contacts and applying no collision
response. -/
def orc0 : PhysOracle :=
  ⟨fun _ _ => ([], []), fun _ vs => vs.map (fun pv => (pv.position, pv.velocity))⟩

/-- A constant stream of standardized noise draws. -/
def z0 : ℕ → ℕ → ℚ × ℚ := fun _ _ => (1, 1)

/-- A marble launched leftward at step 3, noise disabled. -/
def specLaunch3 : MarbleSpec := ⟨⟨400, 300⟩, ⟨-1, 0⟩, 3, -1⟩

/-- A marble whose launch step 800 lies beyond the horizon, noise disabled. -/
def specOOR : MarbleSpec := ⟨⟨400, 300⟩, ⟨1, 0⟩, 800, -1⟩

/-- The same marble with both actions disabled by sentinels. -/
def specAbsent : MarbleSpec := ⟨⟨400, 300⟩, ⟨1, 0⟩, -1, -5⟩

/-- A marble launched at step 0 with the noise perturbation also at step 0. -/
def specNoise0 : MarbleSpec := ⟨⟨400, 300⟩, ⟨1, 0⟩, 0, 0⟩

/-- A marble launched at step 0 with noise disabled. -/
def specNoiseOff : MarbleSpec := ⟨⟨400, 300⟩, ⟨1, 0⟩, 0, -1⟩

/-- An extra wall whose name collides with the default top wall. -/
def dupWall : WallSpec := ⟨"top_wall", ⟨400, 590⟩, 800, 20, "black"⟩

/-- An extra wall with malformed (negative-length) geometry. -/
def badWall : WallSpec := ⟨"bad_wall", ⟨100, 100⟩, -5, 20, "black"⟩

/-! Basic lemmas. -/

theorem step_max_eq : step_max = 750 := by
  have h : (time_max / step_size : ℚ) = 750 := by norm_num [time_max, step_size]
  rw [step_max, h, show ((750 : ℚ)) = ((750 : ℤ) : ℚ) by norm_num, Int.floor_intCast]
  rfl

theorem dictGet_insert_self (k : String) (v : α) (d : List (String × α)) :
    dictGet k (dictInsert k v d) = some v := by
  induction d with
  | nil => simp [dictInsert, dictGet]
  | cons p rest ih =>
    obtain ⟨k1, v1⟩ := p
    by_cases h : k1 = k
    · simp [dictInsert, dictGet, h]
    · simp [dictInsert, dictGet, h, ih]

theorem dictGet_insert_ne (k1 k2 : String) (h : k1 ≠ k2) (v : α)
    (d : List (String × α)) : dictGet k1 (dictInsert k2 v d) = dictGet k1 d := by
  induction d with
  | nil => simp [dictInsert, dictGet, Ne.symm h]
  | cons p rest ih =>
    obtain ⟨ka, va⟩ := p
    by_cases hk : ka = k2
    · subst hk
      simp [dictInsert, dictGet, Ne.symm h]
    · by_cases ha : ka = k1
      · subst ha
        simp [dictInsert, dictGet, h]
      · simp [dictInsert, dictGet, hk, ha, ih]

theorem dictGet_foldl_insert_not_mem (names : List String) (f : String → α)
    (n : String) (h : n ∉ names) :
    ∀ d : List (String × α),
      dictGet n (names.foldl (fun acc m => dictInsert m (f m) acc) d) = dictGet n d := by
  induction names with
  | nil => intro d; rfl
  | cons m ms ih =>
    intro d
    have hne : n ≠ m := fun he => h (he ▸ List.mem_cons_self m ms)
    have hms : n ∉ ms := fun he => h (List.mem_cons_of_mem m he)
    simp only [List.foldl_cons]
    rw [ih hms, dictGet_insert_ne n m hne]

theorem dictGet_foldl_insert_mem (names : List String) (f : String → α)
    (n : String) (h : n ∈ names) :
    ∀ d : List (String × α),
      dictGet n (names.foldl (fun acc m => dictInsert m (f m) acc) d) = some (f n) := by
  induction names with
  | nil => exact absurd h (List.not_mem_nil n)
  | cons m ms ih =>
    intro d
    by_cases hms : n ∈ ms
    · simp only [List.foldl_cons]
      exact ih hms _
    · have hnm : n = m := by
        rcases List.mem_cons.mp h with h1 | h1
        · exact h1
        · exact absurd h1 hms
      subst hnm
      simp only [List.foldl_cons]
      rw [dictGet_foldl_insert_not_mem ms f n hms, dictGet_insert_self]

theorem dictGet_singleton (k : String) (v : α) : dictGet k [(k, v)] = some v := by
  simp [dictGet]

theorem getD_append_self (l : List α) (b junk : α) :
    (l ++ [b]).getD l.length junk = b := by
  induction l with
  | nil => rfl
  | cons a as ih => simp only [List.cons_append, List.length_cons, List.getD_cons_succ, ih]

/-! Fields preserved by the bookkeeping functions. -/

theorem update_outcome_dists_const (w : World) :
    (update_outcome_dists w).step = w.step ∧
    (update_outcome_dists w).space_bodies = w.space_bodies ∧
    (update_outcome_dists w).bodies = w.bodies ∧
    (update_outcome_dists w).path_record_bodies = w.path_record_bodies ∧
    (update_outcome_dists w).outcome_record_bodies = w.outcome_record_bodies ∧
    (update_outcome_dists w).events.collisions = w.events.collisions ∧
    (update_outcome_dists w).events.wall_bounces = w.events.wall_bounces :=
  ⟨rfl, rfl, rfl, rfl, rfl, rfl, rfl⟩

theorem simulate_loop_body_step (sigma : ℚ) (z : ℕ → ℕ → ℚ × ℚ) (orc : PhysOracle)
    (fuel : ℕ) (w : World) (paths : List (String × PathRec)) (h : w.step ≤ step_max) :
    simulate_loop sigma z orc (fuel + 1) w paths =
      simulate_loop sigma z orc fuel
        (let w1 := update_outcome_dists w
         let r := space_step sigma z orc w1.step w1.space_bodies
         { w1 with
           space_bodies := r.1,
           events := { w1.events with
             collisions := w1.events.collisions ++ r.2.1.map (fun p => ⟨p, w1.step⟩),
             wall_bounces := w1.events.wall_bounces ++ r.2.2.map (fun p => ⟨p, w1.step⟩) },
           step := w1.step + 1 })
        (record_paths w paths) := by
  rw [simulate_loop, if_pos h]

theorem simulate_loop_stop (sigma : ℚ) (z : ℕ → ℕ → ℚ × ℚ) (orc : PhysOracle)
    (fuel : ℕ) (w : World) (paths : List (String × PathRec)) (h : ¬ w.step ≤ step_max) :
    simulate_loop sigma z orc (fuel + 1) w paths = (w, paths) := by
  rw [simulate_loop, if_neg h]

theorem add_marble_fields (w : World) (p v : Vec2) (n : String) (d ny : ℤ) :
    (add_marble w p v n d ny).space_bodies = w.space_bodies ++ [mkMarbleBody p v n d ny] ∧
    (add_marble w p v n d ny).bodies = dictInsert n w.space_bodies.length w.bodies ∧
    (add_marble w p v n d ny).shapes = dictInsert n w.space_bodies.length w.shapes :=
  ⟨rfl, rfl, rfl⟩

theorem foldl_add_wall_const (ws : List WallSpec) :
    ∀ w : World,
      ((ws.foldl (fun w wall =>
          if wall.name ≠ "exit" then add_wall w wall.position wall.length wall.height wall.name
          else w) w).step = w.step ∧
       (ws.foldl (fun w wall =>
          if wall.name ≠ "exit" then add_wall w wall.position wall.length wall.height wall.name
          else w) w).space_bodies = w.space_bodies ∧
       (ws.foldl (fun w wall =>
          if wall.name ≠ "exit" then add_wall w wall.position wall.length wall.height wall.name
          else w) w).bodies = w.bodies ∧
       (ws.foldl (fun w wall =>
          if wall.name ≠ "exit" then add_wall w wall.position wall.length wall.height wall.name
          else w) w).shapes = w.shapes ∧
       (ws.foldl (fun w wall =>
          if wall.name ≠ "exit" then add_wall w wall.position wall.length wall.height wall.name
          else w) w).events = w.events ∧
       (ws.foldl (fun w wall =>
          if wall.name ≠ "exit" then add_wall w wall.position wall.length wall.height wall.name
          else w) w).path_record_bodies = w.path_record_bodies ∧
       (ws.foldl (fun w wall =>
          if wall.name ≠ "exit" then add_wall w wall.position wall.length wall.height wall.name
          else w) w).outcome_record_bodies = w.outcome_record_bodies ∧
       (ws.foldl (fun w wall =>
          if wall.name ≠ "exit" then add_wall w wall.position wall.length wall.height wall.name
          else w) w).walls = w.walls) := by
  induction ws with
  | nil => intro w; exact ⟨rfl, rfl, rfl, rfl, rfl, rfl, rfl, rfl⟩
  | cons wl ws ih =>
    intro w
    simp only [List.foldl_cons]
    by_cases h : wl.name ≠ "exit"
    · rw [if_pos h]; exact ih _
    · rw [if_neg h]; exact ih _

theorem foldl_add_wall_static (ws : List WallSpec) :
    ∀ w : World,
      (ws.foldl (fun w wall =>
          if wall.name ≠ "exit" then add_wall w wall.position wall.length wall.height wall.name
          else w) w).space_static
        = w.space_static ++ (ws.filter (fun wl => wl.name ≠ "exit")).map wallShape := by
  induction ws with
  | nil => intro w; simp
  | cons wl ws ih =>
    intro w
    simp only [List.foldl_cons, List.filter_cons]
    by_cases h : wl.name = "exit"
    · rw [if_neg (show ¬ (wl.name ≠ "exit") by simp [h])]
      rw [ih]
      simp [h]
    · rw [if_pos (show wl.name ≠ "exit" from h)]
      rw [ih]
      simp [h, add_wall, wallShape]

theorem foldl_add_marble_const (ms : List (String × MarbleSpec)) :
    ∀ w : World,
      ((ms.foldl (fun w nm =>
          add_marble w nm.2.position nm.2.velocity nm.1 nm.2.delay nm.2.noisy) w).step
          = w.step ∧
       (ms.foldl (fun w nm =>
          add_marble w nm.2.position nm.2.velocity nm.1 nm.2.delay nm.2.noisy) w).walls
          = w.walls ∧
       (ms.foldl (fun w nm =>
          add_marble w nm.2.position nm.2.velocity nm.1 nm.2.delay nm.2.noisy) w).space_static
          = w.space_static ∧
       (ms.foldl (fun w nm =>
          add_marble w nm.2.position nm.2.velocity nm.1 nm.2.delay nm.2.noisy) w).events
          = w.events ∧
       (ms.foldl (fun w nm =>
          add_marble w nm.2.position nm.2.velocity nm.1 nm.2.delay nm.2.noisy) w).path_record_bodies
          = w.path_record_bodies ∧
       (ms.foldl (fun w nm =>
          add_marble w nm.2.position nm.2.velocity nm.1 nm.2.delay nm.2.noisy) w).outcome_record_bodies
          = w.outcome_record_bodies) := by
  induction ms with
  | nil => intro w; exact ⟨rfl, rfl, rfl, rfl, rfl, rfl⟩
  | cons nm ms ih =>
    intro w
    simp only [List.foldl_cons]
    exact ih _

theorem foldl_add_marble_space (ms : List (String × MarbleSpec)) :
    ∀ w : World,
      (ms.foldl (fun w nm =>
          add_marble w nm.2.position nm.2.velocity nm.1 nm.2.delay nm.2.noisy) w).space_bodies
        = w.space_bodies
          ++ ms.map (fun nm => mkMarbleBody nm.2.position nm.2.velocity nm.1 nm.2.delay nm.2.noisy) := by
  induction ms with
  | nil => intro w; simp
  | cons nm ms ih =>
    intro w
    simp only [List.foldl_cons, List.map_cons]
    rw [ih]
    simp [add_marble]

theorem init_const (ms : List (String × MarbleSpec)) (ew : List WallSpec)
    (pr orr : List String) :
    (MarbleWorld_init ms ew pr orr).step = 0 ∧
    (MarbleWorld_init ms ew pr orr).events = ⟨[], [], [], []⟩ ∧
    (MarbleWorld_init ms ew pr orr).path_record_bodies = pr ∧
    (MarbleWorld_init ms ew pr orr).outcome_record_bodies = orr ∧
    (MarbleWorld_init ms ew pr orr).walls = default_walls ++ ew := by
  simp only [MarbleWorld_init]
  obtain ⟨m1, m2, m3, m4, m5, m6⟩ := foldl_add_marble_const ms _
  obtain ⟨w1, w2, w3, w4, w5, w6, w7, w8⟩ := foldl_add_wall_const (default_walls ++ ew) _
  refine ⟨?_, ?_, ?_, ?_, ?_⟩
  · rw [m1, w1]
  · rw [m4, w5]
  · rw [m5, w6]
  · rw [m6, w7]
  · rw [m2, w8]

theorem init_space_static (ms : List (String × MarbleSpec)) (ew : List WallSpec)
    (pr orr : List String) :
    (MarbleWorld_init ms ew pr orr).space_static
      = ((default_walls ++ ew).filter (fun wl => wl.name ≠ "exit")).map wallShape := by
  simp only [MarbleWorld_init]
  obtain ⟨-, -, m3, -, -, -⟩ := foldl_add_marble_const ms _
  rw [m3, foldl_add_wall_static]
  simp

theorem init_space_bodies (ms : List (String × MarbleSpec)) (ew : List WallSpec)
    (pr orr : List String) :
    (MarbleWorld_init ms ew pr orr).space_bodies
      = ms.map (fun nm => mkMarbleBody nm.2.position nm.2.velocity nm.1 nm.2.delay nm.2.noisy) := by
  simp only [MarbleWorld_init]
  rw [foldl_add_marble_space]
  obtain ⟨-, hsb, -, -, -, -, -, -⟩ := foldl_add_wall_const (default_walls ++ ew) _
  rw [hsb]
  simp

theorem init_single_bodies (n : String) (m : MarbleSpec) (ew : List WallSpec)
    (pr orr : List String) :
    (MarbleWorld_init [(n, m)] ew pr orr).bodies = [(n, 0)] := by
  simp only [MarbleWorld_init, List.foldl_cons, List.foldl_nil]
  rw [(add_marble_fields _ _ _ _ _ _).2.1]
  obtain ⟨-, hsb, hb, -, -, -, -, -⟩ := foldl_add_wall_const (default_walls ++ ew) _
  rw [hsb, hb]
  rfl

/-! Lemmas about the simulation loop. -/

theorem simulate_loop_const (sigma : ℚ) (z : ℕ → ℕ → ℚ × ℚ) (orc : PhysOracle) :
    ∀ (fuel : ℕ) (w : World) (paths : List (String × PathRec)),
      (simulate_loop sigma z orc fuel w paths).1.bodies = w.bodies ∧
      (simulate_loop sigma z orc fuel w paths).1.shapes = w.shapes ∧
      (simulate_loop sigma z orc fuel w paths).1.walls = w.walls ∧
      (simulate_loop sigma z orc fuel w paths).1.space_static = w.space_static ∧
      (simulate_loop sigma z orc fuel w paths).1.path_record_bodies = w.path_record_bodies ∧
      (simulate_loop sigma z orc fuel w paths).1.outcome_record_bodies
        = w.outcome_record_bodies := by
  intro fuel
  induction fuel with
  | zero => intro w paths; exact ⟨rfl, rfl, rfl, rfl, rfl, rfl⟩
  | succ n ih =>
    intro w paths
    by_cases h : w.step ≤ step_max
    · rw [simulate_loop_body_step sigma z orc n w paths h]
      exact ih _ _
    · rw [simulate_loop_stop sigma z orc n w paths h]
      exact ⟨rfl, rfl, rfl, rfl, rfl, rfl⟩

theorem simulate_loop_final_step (sigma : ℚ) (z : ℕ → ℕ → ℚ × ℚ) (orc : PhysOracle) :
    ∀ (fuel : ℕ) (w : World) (paths : List (String × PathRec)),
      w.step + fuel = step_max + 1 →
      (simulate_loop sigma z orc fuel w paths).1.step = step_max + 1 := by
  intro fuel
  induction fuel with
  | zero =>
    intro w paths h
    simpa [simulate_loop] using h
  | succ n ih =>
    intro w paths h
    have hle : w.step ≤ step_max := by omega
    rw [simulate_loop_body_step sigma z orc n w paths hle]
    apply ih
    show w.step + 1 + n = step_max + 1
    omega

/-- The loop of `simulate` performs exactly one `space.step` call and one step
increment per iteration, so the final step counter of a world started at step
0 counts the integration steps: `step_max + 1` of them. -/
theorem simulate_world_final_step (sigma : ℚ) (z : ℕ → ℕ → ℚ × ℚ) (orc : PhysOracle)
    (w : World) (h : w.step = 0) :
    (simulate_world sigma z orc w).1.step = step_max + 1 := by
  show (simulate_loop sigma z orc (step_max + 1) (init_outcome_dists w)
      (w.path_record_bodies.foldl (fun acc bname => dictInsert bname (PathRec.mk [] []) acc)
        [])).1.step = step_max + 1
  apply simulate_loop_final_step
  show w.step + (step_max + 1) = step_max + 1
  omega

theorem floor_time_quotient : Int.floor (time_max / step_size : ℚ) = 750 := by
  rw [show (time_max / step_size : ℚ) = 750 by norm_num [time_max, step_size],
    show ((750 : ℚ)) = ((750 : ℤ) : ℚ) by norm_num, Int.floor_intCast]

theorem classify_outcomes_outcome (w : World) (name : String)
    (h : name ∈ w.outcome_record_bodies) :
    dictGet name (classify_outcomes w).events.outcome
      = some (if (findBody w name).position.x > -marble_size / 2 then false else true) := by
  show dictGet name
    (w.outcome_record_bodies.foldl
      (fun acc bname =>
        dictInsert bname
          (if (findBody w bname).position.x > -marble_size / 2 then false else true) acc)
      w.events.outcome)
    = some (if (findBody w name).position.x > -marble_size / 2 then false else true)
  exact dictGet_foldl_insert_mem w.outcome_record_bodies
    (fun bname => if (findBody w bname).position.x > -marble_size / 2 then false else true)
    name h _

/-- The classification biconditional for any world, after the log fold. -/
theorem classify_outcomes_iff (L : World) (name : String)
    (hm : name ∈ L.outcome_record_bodies) :
    (dictGet name (classify_outcomes L).events.outcome = some true
      ↔ (findBody (classify_outcomes L) name).position.x ≤ -marble_size / 2) := by
  rw [classify_outcomes_outcome L name hm,
    show findBody (classify_outcomes L) name = findBody L name from rfl]
  by_cases hgt : (findBody L name).position.x > -marble_size / 2
  · simp [hgt, not_le.mpr hgt]
  · simp [hgt, not_lt.mp hgt]

/-! Event ordering lemmas. -/

theorem chain_le_const_block (ps : List (String × String)) (s : ℕ) :
    List.Chain' (fun a b : Event => a.step ≤ b.step) (ps.map (fun p => ⟨p, s⟩)) := by
  induction ps with
  | nil => simp
  | cons p ps ih =>
    cases ps with
    | nil => simp
    | cons q qs =>
      simp only [List.map_cons] at ih ⊢
      rw [List.chain'_cons]
      exact ⟨le_refl s, ih⟩

theorem head?_map_step (ps : List (String × String)) (s : ℕ) (y : Event)
    (hy : (ps.map (fun p => (⟨p, s⟩ : Event))).head? = some y) : y.step = s := by
  cases ps with
  | nil => simp at hy
  | cons p ps =>
    simp only [List.map_cons, List.head?_cons, Option.some_inj] at hy
    rw [← hy]

theorem chain_le_append_block (es : List Event) (ps : List (String × String)) (s : ℕ)
    (hch : List.Chain' (fun a b : Event => a.step ≤ b.step) es)
    (hb : ∀ e ∈ es, e.step ≤ s) :
    List.Chain' (fun a b : Event => a.step ≤ b.step) (es ++ ps.map (fun p => ⟨p, s⟩)) ∧
    (∀ e ∈ es ++ ps.map (fun p => ⟨p, s⟩), e.step ≤ s) := by
  constructor
  · rw [List.chain'_append]
    refine ⟨hch, chain_le_const_block ps s, ?_⟩
    intro x hx y hy
    have hxl : x ∈ es := List.mem_of_mem_getLast? hx
    have hys : y.step = s := head?_map_step ps s y hy
    rw [hys]
    exact hb x hxl
  · intro e he
    rcases List.mem_append.mp he with h1 | h1
    · exact hb e h1
    · obtain ⟨p, -, rfl⟩ := List.mem_map.mp h1
      exact le_refl s

theorem simulate_loop_events_ordered (sigma : ℚ) (z : ℕ → ℕ → ℚ × ℚ) (orc : PhysOracle) :
    ∀ (fuel : ℕ) (w : World) (paths : List (String × PathRec)),
      List.Chain' (fun a b : Event => a.step ≤ b.step) w.events.collisions →
      (∀ e ∈ w.events.collisions, e.step ≤ w.step) →
      List.Chain' (fun a b : Event => a.step ≤ b.step) w.events.wall_bounces →
      (∀ e ∈ w.events.wall_bounces, e.step ≤ w.step) →
      List.Chain' (fun a b : Event => a.step ≤ b.step)
          (simulate_loop sigma z orc fuel w paths).1.events.collisions ∧
        List.Chain' (fun a b : Event => a.step ≤ b.step)
          (simulate_loop sigma z orc fuel w paths).1.events.wall_bounces := by
  intro fuel
  induction fuel with
  | zero => intro w paths h1 h2 h3 h4; exact ⟨h1, h3⟩
  | succ n ih =>
    intro w paths h1 h2 h3 h4
    by_cases h : w.step ≤ step_max
    · rw [simulate_loop_body_step sigma z orc n w paths h]
      have hc := chain_le_append_block w.events.collisions
        (space_step sigma z orc w.step w.space_bodies).2.1 w.step h1 h2
      have hw := chain_le_append_block w.events.wall_bounces
        (space_step sigma z orc w.step w.space_bodies).2.2 w.step h3 h4
      exact ih _ _ hc.1 (fun e he => Nat.le_succ_of_le (hc.2 e he))
        hw.1 (fun e he => Nat.le_succ_of_le (hw.2 e he))
    · rw [simulate_loop_stop sigma z orc n w paths h]
      exact ⟨h1, h3⟩

/-! Single collision-free marble: the recorded path samples follow
`posTraj`/`velTraj`. -/

theorem space_step_single (sigma : ℚ) (z : ℕ → ℕ → ℚ × ℚ) (orc : PhysOracle)
    (horc : SolveId orc) (s : ℕ) (n : String) (lv : Vec2) (d ny : ℤ) (p v : Vec2) :
    (space_step sigma z orc s [singleBodyAt n lv d ny p v]).1
      = [singleBodyAt n lv d ny ⟨p.x + v.x * step_size, p.y + v.y * step_size⟩
          (delayed_velocity sigma (z s 0) lv d ny s v)] := by
  simp only [space_step]
  rw [horc]
  rfl

theorem get?_map_range' (f : ℕ → α) : ∀ (cnt start s : ℕ), s < cnt →
    ((List.range' start cnt).map f).get? s = some (f (start + s)) := by
  intro cnt
  induction cnt with
  | zero => intro start s h; exact absurd h (Nat.not_lt_zero s)
  | succ k ih =>
    intro start s h
    rw [show List.range' start (k + 1) = start :: List.range' (start + 1) k from rfl]
    cases s with
    | zero => simp
    | succ t =>
      rw [List.map_cons, List.get?_cons_succ, ih (start + 1) t (by omega)]
      rw [show start + 1 + t = start + (t + 1) from by omega]

theorem simulate_loop_single (sigma : ℚ) (z : ℕ → ℕ → ℚ × ℚ) (orc : PhysOracle)
    (horc : SolveId orc) (n : String) (lv : Vec2) (d ny : ℤ) (p0 : Vec2) :
    ∀ (fuel : ℕ) (w : World) (posAcc velAcc : List Vec2),
      w.step + fuel = step_max + 1 →
      w.space_bodies = [singleBodyAt n lv d ny
        (posTraj sigma z lv d ny p0 w.step) (velTraj sigma z lv d ny w.step)] →
      w.bodies = [(n, 0)] →
      w.path_record_bodies = [n] →
      (simulate_loop sigma z orc fuel w [(n, ⟨posAcc, velAcc⟩)]).2
        = [(n, ⟨posAcc ++ (List.range' w.step fuel).map (posTraj sigma z lv d ny p0),
                velAcc ++ (List.range' w.step fuel).map (velTraj sigma z lv d ny)⟩)] := by
  intro fuel
  induction fuel with
  | zero =>
    intro w posAcc velAcc hf hsb hb hpr
    simp [simulate_loop]
  | succ k ih =>
    intro w posAcc velAcc hf hsb hb hpr
    have hle : w.step ≤ step_max := by omega
    rw [simulate_loop_body_step sigma z orc k w _ hle]
    have hfb : findBody w n
        = singleBodyAt n lv d ny (posTraj sigma z lv d ny p0 w.step)
            (velTraj sigma z lv d ny w.step) := by
      unfold findBody
      rw [hb, hsb]
      simp [dictGet]
    have hrp : record_paths w [(n, ⟨posAcc, velAcc⟩)]
        = [(n, ⟨posAcc ++ [posTraj sigma z lv d ny p0 w.step],
               velAcc ++ [velTraj sigma z lv d ny w.step]⟩)] := by
      unfold record_paths
      rw [hpr]
      simp [dictUpdate, hfb, singleBodyAt, mkMarbleBody]
    rw [hrp]
    rw [show List.range' w.step (k + 1) = w.step :: List.range' (w.step + 1) k from rfl,
      List.map_cons, List.map_cons,
      List.append_cons posAcc (posTraj sigma z lv d ny p0 w.step)
        ((List.range' (w.step + 1) k).map (posTraj sigma z lv d ny p0)),
      List.append_cons velAcc (velTraj sigma z lv d ny w.step)
        ((List.range' (w.step + 1) k).map (velTraj sigma z lv d ny))]
    refine ih _ _ _ ?_ ?_ ?_ ?_
    · show w.step + 1 + k = step_max + 1
      omega
    · show (space_step sigma z orc w.step w.space_bodies).1
        = [singleBodyAt n lv d ny (posTraj sigma z lv d ny p0 (w.step + 1))
            (velTraj sigma z lv d ny (w.step + 1))]
      rw [hsb, space_step_single sigma z orc horc]
      rfl
    · exact hb
    · exact hpr

theorem single_run_paths (sigma : ℚ) (z : ℕ → ℕ → ℚ × ℚ) (orc : PhysOracle)
    (horc : SolveId orc) (n : String) (m : MarbleSpec) (ew : List WallSpec)
    (orr : List String) :
    (simulate sigma z orc (MarbleWorld_init [(n, m)] ew [n] orr)).2
      = [(n, ⟨(List.range' 0 (step_max + 1)).map
                (posTraj sigma z m.velocity m.delay m.noisy m.position),
              (List.range' 0 (step_max + 1)).map
                (velTraj sigma z m.velocity m.delay m.noisy)⟩)] := by
  have hpr : (MarbleWorld_init [(n, m)] ew [n] orr).path_record_bodies = [n] :=
    (init_const _ _ _ _).2.2.1
  have hsb0 : (MarbleWorld_init [(n, m)] ew [n] orr).space_bodies
      = [mkMarbleBody m.position m.velocity n m.delay m.noisy] := by
    rw [init_space_bodies]
    simp
  have hb : (MarbleWorld_init [(n, m)] ew [n] orr).bodies = [(n, 0)] :=
    init_single_bodies n m ew [n] orr
  have hstep : (MarbleWorld_init [(n, m)] ew [n] orr).step = 0 :=
    (init_const _ _ _ _).1
  show (simulate_loop sigma z orc (step_max + 1)
      (init_outcome_dists (MarbleWorld_init [(n, m)] ew [n] orr))
      ((MarbleWorld_init [(n, m)] ew [n] orr).path_record_bodies.foldl
        (fun acc bname => dictInsert bname (PathRec.mk [] []) acc) [])).2 = _
  rw [hpr]
  have key := simulate_loop_single sigma z orc horc n m.velocity m.delay m.noisy m.position
    (step_max + 1) (init_outcome_dists (MarbleWorld_init [(n, m)] ew [n] orr)) [] []
    (by show (MarbleWorld_init [(n, m)] ew [n] orr).step + (step_max + 1) = step_max + 1
        rw [hstep]
        omega)
    (by
      show (MarbleWorld_init [(n, m)] ew [n] orr).space_bodies
        = [singleBodyAt n m.velocity m.delay m.noisy
            (posTraj sigma z m.velocity m.delay m.noisy m.position
              (init_outcome_dists (MarbleWorld_init [(n, m)] ew [n] orr)).step)
            (velTraj sigma z m.velocity m.delay m.noisy
              (init_outcome_dists (MarbleWorld_init [(n, m)] ew [n] orr)).step)]
      rw [show (init_outcome_dists (MarbleWorld_init [(n, m)] ew [n] orr)).step
          = (MarbleWorld_init [(n, m)] ew [n] orr).step from rfl, hstep, hsb0]
      rfl)
    hb hpr
  rw [show List.foldl (fun acc bname => dictInsert bname (PathRec.mk [] []) acc)
      ([] : List (String × PathRec)) [n] = [(n, PathRec.mk [] [])] from rfl]
  rw [key]
  rw [show (init_outcome_dists (MarbleWorld_init [(n, m)] ew [n] orr)).step
      = (MarbleWorld_init [(n, m)] ew [n] orr).step from rfl, hstep]
  simp

theorem single_run_velocity (sigma : ℚ) (z : ℕ → ℕ → ℚ × ℚ) (orc : PhysOracle)
    (horc : SolveId orc) (n : String) (m : MarbleSpec) (ew : List WallSpec)
    (orr : List String) (s : ℕ) (hs : s ≤ step_max) :
    sampled_velocity (simulate sigma z orc (MarbleWorld_init [(n, m)] ew [n] orr)).2 n s
      = some (velTraj sigma z m.velocity m.delay m.noisy s) := by
  unfold sampled_velocity
  rw [single_run_paths sigma z orc horc n m ew orr, dictGet_singleton]
  show (List.map (velTraj sigma z m.velocity m.delay m.noisy)
      (List.range' 0 (step_max + 1))).get? s = _
  rw [get?_map_range' (velTraj sigma z m.velocity m.delay m.noisy) (step_max + 1) 0 s
    (by omega)]
  rw [Nat.zero_add]

/-- A marble's velocity stays exactly zero while its launch step has not been
reached (the launch branch cannot fire, and both the default velocity update
and the noise rescaling map zero to zero). -/
theorem velTraj_zero (sigma : ℚ) (z : ℕ → ℕ → ℚ × ℚ) (lv : Vec2) (d ny : ℤ) :
    ∀ s : ℕ, (s : ℤ) ≤ d → velTraj sigma z lv d ny s = ⟨0, 0⟩ := by
  intro s
  induction s with
  | zero => intro h; rfl
  | succ k ih =>
    intro h
    have hk : (k : ℤ) ≤ d := by push_cast at h ⊢; omega
    have hne : (k : ℤ) ≠ d := by push_cast at h; omega
    show delayed_velocity sigma (z k 0) lv d ny k (velTraj sigma z lv d ny k) = ⟨0, 0⟩
    rw [ih hk]
    unfold delayed_velocity apply_launch_impulse apply_velocity_noise update_velocity
    rw [if_neg hne]
    by_cases hn : (k : ℤ) = ny
    · rw [if_pos hn]; simp
    · rw [if_neg hn]; simp

/-! Claim theorems. -/

/-- Claim C2: for a marble configured with launch velocity `v` and
`launch_step = d` in `[0, step_max]`, with zero initial velocity, no
collisions (identity contact solver) and no noise action before `d`: its
sampled velocity is exactly zero at every sampled step below `d`; the launch
branch of `delayed_velocity` fires at exactly one step of the horizon, namely
`d`; the impulse applied there changes the velocity by `v * speed` (mass 1);
and the velocity sampled at step `d` itself is still zero, so the velocity
right after the impulse is exactly `v * speed`. -/
theorem claim_C2 (sigma : ℚ) (z : ℕ → ℕ → ℚ × ℚ) (orc : PhysOracle)
    (horc : SolveId orc) (n : String) (m : MarbleSpec) (ew : List WallSpec)
    (orr : List String)
    (h0 : 0 ≤ m.delay) (h1 : m.delay ≤ (step_max : ℤ))
    (h2 : ∀ s : ℕ, (s : ℤ) < m.delay → (s : ℤ) ≠ m.noisy) :
    (∀ s : ℕ, (s : ℤ) < m.delay →
        sampled_velocity (simulate sigma z orc (MarbleWorld_init [(n, m)] ew [n] orr)).2 n s
          = some ⟨0, 0⟩) ∧
    (∀ s : ℕ, s ≤ step_max → (((s : ℤ) = m.delay) ↔ s = m.delay.toNat)) ∧
    (∀ v : Vec2, apply_launch_impulse m.velocity m.delay m.delay.toNat v
        = ⟨v.x + m.velocity.x * speed, v.y + m.velocity.y * speed⟩) ∧
    velTraj sigma z m.velocity m.delay m.noisy m.delay.toNat = ⟨0, 0⟩ := by
  refine ⟨?_, ?_, ?_, ?_⟩
  · intro s hs
    have hsmax : s ≤ step_max := by omega
    rw [single_run_velocity sigma z orc horc n m ew orr s hsmax,
      velTraj_zero sigma z m.velocity m.delay m.noisy s (le_of_lt hs)]
  · intro s hs
    constructor
    · intro h; omega
    · intro h; omega
  · intro v
    unfold apply_launch_impulse
    rw [if_pos (Int.toNat_of_nonneg h0)]
  · exact velTraj_zero sigma z m.velocity m.delay m.noisy m.delay.toNat
      (by rw [Int.toNat_of_nonneg h0])

theorem claim_C2_witness :
    SolveId orc0 ∧ (0 : ℤ) ≤ specLaunch3.delay ∧ specLaunch3.delay ≤ (step_max : ℤ) ∧
    (∀ s : ℕ, (s : ℤ) < specLaunch3.delay → (s : ℤ) ≠ specLaunch3.noisy) ∧
    ((∀ s : ℕ, (s : ℤ) < specLaunch3.delay →
        sampled_velocity
            (simulate 0 z0 orc0 (MarbleWorld_init [("m", specLaunch3)] [] ["m"] [])).2 "m" s
          = some ⟨0, 0⟩) ∧
      (∀ s : ℕ, s ≤ step_max →
        (((s : ℤ) = specLaunch3.delay) ↔ s = specLaunch3.delay.toNat)) ∧
      (∀ v : Vec2,
        apply_launch_impulse specLaunch3.velocity specLaunch3.delay specLaunch3.delay.toNat v
          = ⟨v.x + specLaunch3.velocity.x * speed, v.y + specLaunch3.velocity.y * speed⟩) ∧
      velTraj 0 z0 specLaunch3.velocity specLaunch3.delay specLaunch3.noisy
          specLaunch3.delay.toNat = ⟨0, 0⟩) := by
  have hsolve : SolveId orc0 := fun s vs => rfl
  have hd0 : (0 : ℤ) ≤ specLaunch3.delay := by decide
  have hd1 : specLaunch3.delay ≤ (step_max : ℤ) := by
    rw [step_max_eq]; decide
  have hn : ∀ s : ℕ, (s : ℤ) < specLaunch3.delay → (s : ℤ) ≠ specLaunch3.noisy := by
    intro s h
    have h3 : (s : ℤ) < 3 := h
    show (s : ℤ) ≠ -1
    omega
  exact ⟨hsolve, hd0, hd1, hn,
    claim_C2 0 z0 orc0 hsolve "m" specLaunch3 [] [] hd0 hd1 hn⟩

/-- Claim C9, counterexample to the claim as stated: two worlds built from the
same configuration do not produce identical observable outputs when the shared
class attribute `velocity_noise` changes between their simulations — with a
marble whose noise step is in range, the run with ambient deviation 0 differs
from the run with ambient deviation 1 even on identical random draws, because
`delayed_velocity` reads the class attribute at call time rather than a value
copied at construction. -/
theorem claim_C9_cex :
    simulate 0 z0 orc0 (MarbleWorld_init [("m", specNoise0)] [] ["m"] [])
      ≠ simulate 1 z0 orc0 (MarbleWorld_init [("m", specNoise0)] [] ["m"] []) := by
  intro heq
  have hsolve : SolveId orc0 := fun s vs => rfl
  have hmax : (1 : ℕ) ≤ step_max := by rw [step_max_eq]; omega
  have h0 := single_run_velocity 0 z0 orc0 hsolve "m" specNoise0 [] [] 1 hmax
  have h1 := single_run_velocity 1 z0 orc0 hsolve "m" specNoise0 [] [] 1 hmax
  rw [heq, h1] at h0
  have hx := congrArg Vec2.x (Option.some.inj h0)
  simp only [velTraj, delayed_velocity, apply_velocity_noise, apply_launch_impulse,
    update_velocity, gauss1, z0, specNoise0] at hx
  norm_num [speed] at hx

/-- Claim C1: for every outcome-tracked body, after the simulation loop
completes the outcome mapping assigns it `passed = true` iff its final
horizontal position is at or beyond one body-radius past the arena's left
boundary (`x <= -marble_size/2`, origin at the left wall), and `false`
otherwise. -/
theorem claim_C1 (sigma : ℚ) (z : ℕ → ℕ → ℚ × ℚ) (orc : PhysOracle) (w : World)
    (name : String) (h : name ∈ w.outcome_record_bodies) :
    (dictGet name (simulate_world sigma z orc w).1.events.outcome = some true
      ↔ (findBody (simulate_world sigma z orc w).1 name).position.x ≤ -marble_size / 2) := by
  refine classify_outcomes_iff _ name ?_
  rw [(simulate_loop_const sigma z orc _ _ _).2.2.2.2.2]
  exact h

theorem claim_C1_witness :
    "m" ∈ (MarbleWorld_init [("m", specNoiseOff)] [] [] ["m"]).outcome_record_bodies ∧
    (dictGet "m"
        (simulate_world 0 z0 orc0
          (MarbleWorld_init [("m", specNoiseOff)] [] [] ["m"])).1.events.outcome = some true
      ↔ (findBody
          (simulate_world 0 z0 orc0
            (MarbleWorld_init [("m", specNoiseOff)] [] [] ["m"])).1 "m").position.x
          ≤ -marble_size / 2) := by
  have hm : "m" ∈ (MarbleWorld_init [("m", specNoiseOff)] [] [] ["m"]).outcome_record_bodies := by
    rw [(init_const [("m", specNoiseOff)] [] [] ["m"]).2.2.2.1]
    exact List.mem_singleton.mpr rfl
  exact ⟨hm, claim_C1 0 z0 orc0 _ "m" hm⟩

/-- Claim C6: for every run, the recorded `collisions` sequence and the
recorded `wall_bounces` sequence are each nondecreasing in their step index
from the first entry to the last — for any physics oracle, noise stream and
configuration, because events appended in a loop iteration carry the current
step counter, which increases by one per iteration. -/
theorem claim_C6 (sigma : ℚ) (z : ℕ → ℕ → ℚ × ℚ) (orc : PhysOracle)
    (ms : List (String × MarbleSpec)) (ew : List WallSpec) (pr orr : List String) :
    List.Chain' (fun a b : Event => a.step ≤ b.step)
      (simulate sigma z orc (MarbleWorld_init ms ew pr orr)).1.collisions ∧
    List.Chain' (fun a b : Event => a.step ≤ b.step)
      (simulate sigma z orc (MarbleWorld_init ms ew pr orr)).1.wall_bounces := by
  have h0 : (MarbleWorld_init ms ew pr orr).events = ⟨[], [], [], []⟩ :=
    (init_const ms ew pr orr).2.1
  have hc : (init_outcome_dists (MarbleWorld_init ms ew pr orr)).events.collisions = [] := by
    show (MarbleWorld_init ms ew pr orr).events.collisions = []
    rw [h0]
  have hwb : (init_outcome_dists (MarbleWorld_init ms ew pr orr)).events.wall_bounces = [] := by
    show (MarbleWorld_init ms ew pr orr).events.wall_bounces = []
    rw [h0]
  exact simulate_loop_events_ordered sigma z orc (step_max + 1)
    (init_outcome_dists (MarbleWorld_init ms ew pr orr))
    ((MarbleWorld_init ms ew pr orr).path_record_bodies.foldl
      (fun acc bname => dictInsert bname (PathRec.mk [] []) acc) [])
    (by rw [hc]; exact List.chain'_nil)
    (by rw [hc]; intro e he; simp at he)
    (by rw [hwb]; exact List.chain'_nil)
    (by rw [hwb]; intro e he; simp at he)

/-- Claim C3 (amended): for every run the stepper iterates from step 0 up to
and including the fixed bound `step_max = floor(time_max / step_size) = 750`
(the loop condition is `step <= step_max` with the counter starting at 0), so
it performs exactly `step_max + 1 = 751` integration steps under the default
configuration, and never terminates the loop early based on outcome — the
final step count holds for every physics oracle, every noise stream and every
configuration. -/
theorem claim_C3 (sigma : ℚ) (z : ℕ → ℕ → ℚ × ℚ) (orc : PhysOracle)
    (ms : List (String × MarbleSpec)) (ew : List WallSpec) (pr orr : List String) :
    (simulate_world sigma z orc (MarbleWorld_init ms ew pr orr)).1.step = step_max + 1 ∧
    step_max + 1 = 751 ∧
    (step_max : ℤ) = Int.floor (time_max / step_size : ℚ) := by
  refine ⟨?_, ?_, ?_⟩
  · exact simulate_world_final_step sigma z orc _ (init_const ms ew pr orr).1
  · rw [step_max_eq]
  · rw [step_max_eq, floor_time_quotient]
    rfl

/-- Claim C3, counterexample to the claim as stated: the default run performs
751 integration steps, not 750. -/
theorem claim_C3_cex :
    (simulate_world 0 z0 orc0 (MarbleWorld_init [] [] [] [])).1.step = 751 ∧
    (751 : ℕ) ≠ 750 := by
  constructor
  · rw [simulate_world_final_step 0 z0 orc0 _ (init_const [] [] [] []).1, step_max_eq]
  · decide

/-- Claim C4 (amended): for every outcome-tracked body the running minimum
squared exit distance is initialized, before the first per-step sample, to the
squared arena length `full_length^2 = 640000` — not the squared arena
diagonal (`simulate` applies `init_outcome_dists` before entering the loop). -/
theorem claim_C4 (w : World) (name : String) (h : name ∈ w.outcome_record_bodies) :
    dictGet name (init_outcome_dists w).events.outcome_dists = some (full_length ^ 2) ∧
    full_length ^ 2 = (640000 : ℚ) := by
  constructor
  · show dictGet name
      (w.outcome_record_bodies.foldl
        (fun acc bname => dictInsert bname (full_length ^ 2) acc) w.events.outcome_dists)
      = some (full_length ^ 2)
    exact dictGet_foldl_insert_mem w.outcome_record_bodies (fun _ => full_length ^ 2) name h _
  · norm_num [full_length]

theorem claim_C4_witness :
    "m" ∈ (MarbleWorld_init [] [] [] ["m"]).outcome_record_bodies ∧
    (dictGet "m" (init_outcome_dists (MarbleWorld_init [] [] [] ["m"])).events.outcome_dists
        = some (full_length ^ 2) ∧
      full_length ^ 2 = (640000 : ℚ)) := by
  have hm : "m" ∈ (MarbleWorld_init [] [] [] ["m"]).outcome_record_bodies := by
    rw [(init_const [] [] [] ["m"]).2.2.2.1]
    exact List.mem_singleton.mpr rfl
  exact ⟨hm, claim_C4 _ "m" hm⟩

/-- Claim C4, counterexample to the claim as stated: the initial value is
`full_length^2 = 640000`, which differs from the squared arena diagonal
`full_length^2 + full_height^2 = 1000000` and is not an upper bound on the
squared exit distance over the arena — the corner `(full_length, 0)` has
squared exit distance 714100. -/
theorem claim_C4_cex :
    dictGet "m" (init_outcome_dists (MarbleWorld_init [] [] [] ["m"])).events.outcome_dists
      = some (full_length ^ 2) ∧
    full_length ^ 2 ≠ full_length ^ 2 + full_height ^ 2 ∧
    exit_dist ⟨full_length, 0⟩ > full_length ^ 2 := by
  refine ⟨?_, ?_, ?_⟩
  · have hm : "m" ∈ (MarbleWorld_init [] [] [] ["m"]).outcome_record_bodies := by
      rw [(init_const [] [] [] ["m"]).2.2.2.1]
      exact List.mem_singleton.mpr rfl
    show dictGet "m"
      ((MarbleWorld_init [] [] [] ["m"]).outcome_record_bodies.foldl
        (fun acc bname => dictInsert bname (full_length ^ 2) acc)
        (MarbleWorld_init [] [] [] ["m"]).events.outcome_dists)
      = some (full_length ^ 2)
    exact dictGet_foldl_insert_mem _ (fun _ => full_length ^ 2) "m" hm _
  · norm_num [full_length, full_height]
  · norm_num [exit_dist, exit_position, full_length, full_height, wall_thickness]

/-- Claim C5 (amended): world construction performs no structural validation
and never raises: every configuration — including duplicate body names and
malformed wall geometry — constructs a world, with every non-exit wall
inserted as given (duplicates included) and every marble body appended in
mapping order. -/
theorem claim_C5 (ms : List (String × MarbleSpec)) (ew : List WallSpec)
    (pr orr : List String) :
    MarbleWorld_init_checked ms ew pr orr = Except.ok (MarbleWorld_init ms ew pr orr) ∧
    (MarbleWorld_init ms ew pr orr).space_static
      = ((default_walls ++ ew).filter (fun wl => wl.name ≠ "exit")).map wallShape ∧
    (MarbleWorld_init ms ew pr orr).space_bodies
      = ms.map (fun nm => mkMarbleBody nm.2.position nm.2.velocity nm.1 nm.2.delay nm.2.noisy) :=
  ⟨rfl, init_space_static ms ew pr orr, init_space_bodies ms ew pr orr⟩

/-- Claim C5, counterexample to the claim as stated: a configuration with a
duplicate wall name (`dupWall` shadows the default `top_wall`), a marble named
after an existing wall, and a malformed negative-length wall (`badWall`) does
not fail fast — construction succeeds, both same-named walls end up in the
space, the malformed wall is inserted as given, and the marble is registered. -/
theorem claim_C5_cex :
    MarbleWorld_init_checked [("top_wall", specNoiseOff)] [dupWall, badWall] [] []
      = Except.ok (MarbleWorld_init [("top_wall", specNoiseOff)] [dupWall, badWall] [] []) ∧
    ((MarbleWorld_init [("top_wall", specNoiseOff)] [dupWall, badWall] [] []).space_static.countP
        (fun s => s.name == "top_wall")) = 2 ∧
    wallShape badWall
      ∈ (MarbleWorld_init [("top_wall", specNoiseOff)] [dupWall, badWall] [] []).space_static ∧
    dictGet "top_wall"
        (MarbleWorld_init [("top_wall", specNoiseOff)] [dupWall, badWall] [] []).bodies
      = some 0 := by
  refine ⟨rfl, ?_, ?_, ?_⟩
  · rw [init_space_static]
    decide
  · rw [init_space_static]
    refine List.mem_map.mpr ⟨badWall, List.mem_filter.mpr ⟨?_, by decide⟩, rfl⟩
    exact List.mem_append_right _ (by simp)
  · rw [init_single_bodies]
    simp [dictGet]

/-- Claim C8: for every world built from the default walls plus any extra
walls, the static shapes inserted into the space are exactly the walls of the
combined list not named `"exit"` (with elasticity 1 and the static collision
type); no shape named `"exit"` is ever inserted, while every other wall is. -/
theorem claim_C8 (ms : List (String × MarbleSpec)) (ew : List WallSpec)
    (pr orr : List String) :
    (MarbleWorld_init ms ew pr orr).space_static
      = ((default_walls ++ ew).filter (fun wl => wl.name ≠ "exit")).map wallShape ∧
    (∀ s ∈ (MarbleWorld_init ms ew pr orr).space_static,
        s.name ≠ "exit" ∧ s.collision_type = collision_type_static ∧ s.elasticity = 1) ∧
    (∀ wl ∈ default_walls ++ ew, wl.name ≠ "exit" →
        wallShape wl ∈ (MarbleWorld_init ms ew pr orr).space_static) := by
  have h := init_space_static ms ew pr orr
  refine ⟨h, ?_, ?_⟩
  · intro s hs
    rw [h] at hs
    obtain ⟨wl, hwl, rfl⟩ := List.mem_map.mp hs
    refine ⟨?_, rfl, rfl⟩
    have := (List.mem_filter.mp hwl).2
    simpa using this
  · intro wl hwl hne
    rw [h]
    exact List.mem_map.mpr ⟨wl, List.mem_filter.mpr ⟨hwl, by simpa using hne⟩, rfl⟩

theorem claim_C8_witness :
    (MarbleWorld_init [] [dupWall] [] []).space_static
      = ((default_walls ++ [dupWall]).filter (fun wl => wl.name ≠ "exit")).map wallShape ∧
    (∀ s ∈ (MarbleWorld_init [] [dupWall] [] []).space_static,
        s.name ≠ "exit" ∧ s.collision_type = collision_type_static ∧ s.elasticity = 1) ∧
    (∀ wl ∈ default_walls ++ [dupWall], wl.name ≠ "exit" →
        wallShape wl ∈ (MarbleWorld_init [] [dupWall] [] []).space_static) :=
  claim_C8 [] [dupWall] [] []

/-- Claim C10: adding a marble whose name equals an already-registered
marble's raises no error — `add_marble` is total — and the registry entry for
the name now references the newly appended body, while the first body (with
its shape data, including the dynamic collision type under which the space
steps it) remains in the space. -/
theorem claim_C10 (w : World) (p1 v1 p2 v2 : Vec2) (name : String) (d1 n1 d2 n2 : ℤ) :
    dictGet name (add_marble (add_marble w p1 v1 name d1 n1) p2 v2 name d2 n2).bodies
      = some (w.space_bodies.length + 1) ∧
    findBody (add_marble (add_marble w p1 v1 name d1 n1) p2 v2 name d2 n2) name
      = mkMarbleBody p2 v2 name d2 n2 ∧
    mkMarbleBody p1 v1 name d1 n1
      ∈ (add_marble (add_marble w p1 v1 name d1 n1) p2 v2 name d2 n2).space_bodies ∧
    mkMarbleBody p2 v2 name d2 n2
      ∈ (add_marble (add_marble w p1 v1 name d1 n1) p2 v2 name d2 n2).space_bodies ∧
    (mkMarbleBody p1 v1 name d1 n1).collision_type = collision_type_dynamic ∧
    (mkMarbleBody p2 v2 name d2 n2).collision_type = collision_type_dynamic := by
  have hget : dictGet name
      (add_marble (add_marble w p1 v1 name d1 n1) p2 v2 name d2 n2).bodies
      = some ((w.space_bodies ++ [mkMarbleBody p1 v1 name d1 n1]).length) := by
    show dictGet name
      (dictInsert name (w.space_bodies ++ [mkMarbleBody p1 v1 name d1 n1]).length
        (dictInsert name w.space_bodies.length w.bodies)) = _
    exact dictGet_insert_self _ _ _
  refine ⟨?_, ?_, ?_, ?_, rfl, rfl⟩
  · rw [hget]
    simp
  · unfold findBody
    rw [hget]
    exact getD_append_self _ _ _
  · show mkMarbleBody p1 v1 name d1 n1
      ∈ (w.space_bodies ++ [mkMarbleBody p1 v1 name d1 n1]) ++ [mkMarbleBody p2 v2 name d2 n2]
    simp
  · show mkMarbleBody p2 v2 name d2 n2
      ∈ (w.space_bodies ++ [mkMarbleBody p1 v1 name d1 n1]) ++ [mkMarbleBody p2 v2 name d2 n2]
    simp

/-! Equivalence of runs that differ only in schedule steps that can never
fire (and, when no noise fires, in the ambient noise deviation). -/

theorem out_of_range_ne (s : ℕ) (hs : s ≤ step_max) (d : ℤ) (h : OutOfRange d) :
    (s : ℤ) ≠ d := by
  unfold OutOfRange at h
  have hs2 : (s : ℤ) ≤ (step_max : ℤ) := by exact_mod_cast hs
  omega

theorem BodyEquiv_junk (sigma1 sigma2 : ℚ) : BodyEquiv sigma1 sigma2 junkBody junkBody :=
  ⟨rfl, rfl, rfl, rfl, rfl, rfl, rfl, rfl, rfl, rfl, Or.inl rfl,
    Or.inr ⟨Or.inl (by decide), Or.inl (by decide)⟩⟩

theorem BodyEquiv_view (sigma1 sigma2 : ℚ) (b1 b2 : Body)
    (h : BodyEquiv sigma1 sigma2 b1 b2) : b1.view = b2.view := by
  unfold Body.view
  rw [h.name_eq, h.pos_eq, h.vel_eq, h.radius_eq]

theorem forall₂_map_view (sigma1 sigma2 : ℚ) :
    ∀ l1 l2, List.Forall₂ (BodyEquiv sigma1 sigma2) l1 l2 →
      l1.map Body.view = l2.map Body.view := by
  intro l1 l2 h
  induction h with
  | nil => rfl
  | cons hab hrest ih => simp only [List.map_cons, BodyEquiv_view _ _ _ _ hab, ih]

theorem forall₂_getD (sigma1 sigma2 : ℚ) :
    ∀ l1 l2, List.Forall₂ (BodyEquiv sigma1 sigma2) l1 l2 →
      ∀ i, BodyEquiv sigma1 sigma2 (l1.getD i junkBody) (l2.getD i junkBody) := by
  intro l1 l2 h
  induction h with
  | nil => intro i; exact BodyEquiv_junk sigma1 sigma2
  | cons hab hrest ih =>
    intro i
    cases i with
    | zero => exact hab
    | succ j => exact ih j

theorem delayed_velocity_equiv (sigma1 sigma2 : ℚ) (zz : ℚ × ℚ) (b1 b2 : Body) (s : ℕ)
    (hs : s ≤ step_max) (h : BodyEquiv sigma1 sigma2 b1 b2) (v : Vec2) :
    delayed_velocity sigma1 zz b1.launch_velocity b1.delay b1.noisy s v
      = delayed_velocity sigma2 zz b2.launch_velocity b2.delay b2.noisy s v := by
  unfold delayed_velocity
  rw [h.launch_eq]
  have himp : apply_launch_impulse b2.launch_velocity b1.delay s
        (update_velocity ⟨0, 0⟩ 1 step_size v)
      = apply_launch_impulse b2.launch_velocity b2.delay s
        (update_velocity ⟨0, 0⟩ 1 step_size v) := by
    rcases h.delay_cond with hd | ⟨ho1, ho2⟩
    · rw [hd]
    · unfold apply_launch_impulse
      rw [if_neg (out_of_range_ne s hs _ ho1), if_neg (out_of_range_ne s hs _ ho2)]
  rw [himp]
  rcases h.noisy_cond with ⟨hss, hnn⟩ | ⟨ho1, ho2⟩
  · rw [hss, hnn]
  · unfold apply_velocity_noise
    rw [if_neg (out_of_range_ne s hs _ ho1), if_neg (out_of_range_ne s hs _ ho2)]

theorem integrate_position_equiv (sigma1 sigma2 : ℚ) (b1 b2 : Body)
    (h : BodyEquiv sigma1 sigma2 b1 b2) :
    BodyEquiv sigma1 sigma2 (integrate_position b1) (integrate_position b2) := by
  refine ⟨h.name_eq, ?_, h.vel_eq, h.angle_eq, h.radius_eq, h.elas_eq, h.fric_eq,
    h.mass_eq, h.ctype_eq, h.launch_eq, h.delay_cond, h.noisy_cond⟩
  show (⟨b1.position.x + b1.velocity.x * step_size,
      b1.position.y + b1.velocity.y * step_size⟩ : Vec2)
    = ⟨b2.position.x + b2.velocity.x * step_size,
      b2.position.y + b2.velocity.y * step_size⟩
  rw [h.pos_eq, h.vel_eq]

theorem apply_velocity_funcs_equiv (sigma1 sigma2 : ℚ) (z : ℕ → ℕ → ℚ × ℚ) (s : ℕ)
    (hs : s ≤ step_max) :
    ∀ l1 l2, List.Forall₂ (BodyEquiv sigma1 sigma2) l1 l2 →
      ∀ i, List.Forall₂ (BodyEquiv sigma1 sigma2)
        (apply_velocity_funcs sigma1 z s i l1) (apply_velocity_funcs sigma2 z s i l2) := by
  intro l1 l2 h
  induction h with
  | nil => intro i; exact List.Forall₂.nil
  | @cons a b t1 t2 hab hrest ih =>
    intro i
    refine List.Forall₂.cons ?_ (ih (i + 1))
    have hvel : delayed_velocity sigma1 (z s i) a.launch_velocity a.delay a.noisy s a.velocity
        = delayed_velocity sigma2 (z s i) b.launch_velocity b.delay b.noisy s b.velocity := by
      rw [hab.vel_eq]
      exact delayed_velocity_equiv sigma1 sigma2 (z s i) a b s hs hab b.velocity
    exact ⟨hab.name_eq, hab.pos_eq, hvel, hab.angle_eq, hab.radius_eq, hab.elas_eq,
      hab.fric_eq, hab.mass_eq, hab.ctype_eq, hab.launch_eq, hab.delay_cond, hab.noisy_cond⟩

theorem apply_solution_equiv (sigma1 sigma2 : ℚ) :
    ∀ l1 l2, List.Forall₂ (BodyEquiv sigma1 sigma2) l1 l2 →
      ∀ sols, List.Forall₂ (BodyEquiv sigma1 sigma2)
        (apply_solution l1 sols) (apply_solution l2 sols) := by
  intro l1 l2 h
  induction h with
  | nil => intro sols; cases sols <;> exact List.Forall₂.nil
  | @cons a b t1 t2 hab hrest ih =>
    intro sols
    cases sols with
    | nil => exact List.Forall₂.cons hab hrest
    | cons pv pvs =>
      refine List.Forall₂.cons ?_ (ih pvs)
      exact ⟨hab.name_eq, rfl, rfl, hab.angle_eq, hab.radius_eq, hab.elas_eq,
        hab.fric_eq, hab.mass_eq, hab.ctype_eq, hab.launch_eq, hab.delay_cond,
        hab.noisy_cond⟩

theorem forall₂_map_integrate (sigma1 sigma2 : ℚ) :
    ∀ l1 l2, List.Forall₂ (BodyEquiv sigma1 sigma2) l1 l2 →
      List.Forall₂ (BodyEquiv sigma1 sigma2)
        (l1.map integrate_position) (l2.map integrate_position) := by
  intro l1 l2 h
  induction h with
  | nil => exact List.Forall₂.nil
  | @cons a b t1 t2 hab hrest ih =>
    exact List.Forall₂.cons (integrate_position_equiv sigma1 sigma2 a b hab) ih

theorem space_step_equiv (sigma1 sigma2 : ℚ) (z : ℕ → ℕ → ℚ × ℚ) (orc : PhysOracle)
    (s : ℕ) (hs : s ≤ step_max) (l1 l2 : List Body)
    (h : List.Forall₂ (BodyEquiv sigma1 sigma2) l1 l2) :
    List.Forall₂ (BodyEquiv sigma1 sigma2)
        (space_step sigma1 z orc s l1).1 (space_step sigma2 z orc s l2).1 ∧
      (space_step sigma1 z orc s l1).2 = (space_step sigma2 z orc s l2).2 := by
  have h1 := forall₂_map_integrate sigma1 sigma2 l1 l2 h
  have hview1 := forall₂_map_view sigma1 sigma2 _ _ h1
  have h2 := apply_velocity_funcs_equiv sigma1 sigma2 z s hs _ _ h1 0
  have hview2 := forall₂_map_view sigma1 sigma2 _ _ h2
  constructor
  · show List.Forall₂ (BodyEquiv sigma1 sigma2)
      (apply_solution (apply_velocity_funcs sigma1 z s 0 (l1.map integrate_position))
        (orc.solve s ((apply_velocity_funcs sigma1 z s 0 (l1.map integrate_position)).map
          Body.view)))
      (apply_solution (apply_velocity_funcs sigma2 z s 0 (l2.map integrate_position))
        (orc.solve s ((apply_velocity_funcs sigma2 z s 0 (l2.map integrate_position)).map
          Body.view)))
    rw [hview2]
    exact apply_solution_equiv sigma1 sigma2 _ _ h2 _
  · show orc.detect s ((l1.map integrate_position).map Body.view)
      = orc.detect s ((l2.map integrate_position).map Body.view)
    rw [hview1]

theorem findBody_equiv (sigma1 sigma2 : ℚ) (w1 w2 : World)
    (h : WorldEquiv sigma1 sigma2 w1 w2) (n : String) :
    BodyEquiv sigma1 sigma2 (findBody w1 n) (findBody w2 n) := by
  unfold findBody
  rw [h.bodies_eq]
  cases dictGet n w2.bodies with
  | none => exact BodyEquiv_junk sigma1 sigma2
  | some i => exact forall₂_getD sigma1 sigma2 _ _ h.space_forall i

theorem record_paths_equiv (sigma1 sigma2 : ℚ) (w1 w2 : World)
    (h : WorldEquiv sigma1 sigma2 w1 w2) (paths : List (String × PathRec)) :
    record_paths w1 paths = record_paths w2 paths := by
  unfold record_paths
  rw [h.path_rec_eq]
  apply List.foldl_ext
  intro acc bname hmem
  have hb := findBody_equiv sigma1 sigma2 w1 w2 h bname
  rw [hb.pos_eq, hb.vel_eq]

theorem update_outcome_dists_equiv (sigma1 sigma2 : ℚ) (w1 w2 : World)
    (h : WorldEquiv sigma1 sigma2 w1 w2) :
    WorldEquiv sigma1 sigma2 (update_outcome_dists w1) (update_outcome_dists w2) := by
  refine ⟨h.step_eq, h.walls_eq, h.static_eq, h.bodies_eq, h.shapes_eq, ?_,
    h.path_rec_eq, h.outcome_rec_eq, h.space_forall⟩
  simp only [update_outcome_dists]
  rw [h.events_eq, h.outcome_rec_eq]
  congr 1
  apply List.foldl_ext
  intro acc bname hmem
  rw [(findBody_equiv sigma1 sigma2 w1 w2 h bname).pos_eq]

theorem init_outcome_dists_equiv (sigma1 sigma2 : ℚ) (w1 w2 : World)
    (h : WorldEquiv sigma1 sigma2 w1 w2) :
    WorldEquiv sigma1 sigma2 (init_outcome_dists w1) (init_outcome_dists w2) := by
  refine ⟨h.step_eq, h.walls_eq, h.static_eq, h.bodies_eq, h.shapes_eq, ?_,
    h.path_rec_eq, h.outcome_rec_eq, h.space_forall⟩
  simp only [init_outcome_dists]
  rw [h.events_eq, h.outcome_rec_eq]

theorem loop_body_equiv (sigma1 sigma2 : ℚ) (z : ℕ → ℕ → ℚ × ℚ) (orc : PhysOracle)
    (w1 w2 : World) (h : WorldEquiv sigma1 sigma2 w1 w2) (hs : w1.step ≤ step_max) :
    WorldEquiv sigma1 sigma2
      (let u1 := update_outcome_dists w1
       let r := space_step sigma1 z orc u1.step u1.space_bodies
       { u1 with
         space_bodies := r.1,
         events := { u1.events with
           collisions := u1.events.collisions ++ r.2.1.map (fun p => ⟨p, u1.step⟩),
           wall_bounces := u1.events.wall_bounces ++ r.2.2.map (fun p => ⟨p, u1.step⟩) },
         step := u1.step + 1 })
      (let u2 := update_outcome_dists w2
       let r := space_step sigma2 z orc u2.step u2.space_bodies
       { u2 with
         space_bodies := r.1,
         events := { u2.events with
           collisions := u2.events.collisions ++ r.2.1.map (fun p => ⟨p, u2.step⟩),
           wall_bounces := u2.events.wall_bounces ++ r.2.2.map (fun p => ⟨p, u2.step⟩) },
         step := u2.step + 1 }) := by
  have hu := update_outcome_dists_equiv sigma1 sigma2 w1 w2 h
  have hstep1 : (update_outcome_dists w1).step = w1.step := rfl
  have hsp := space_step_equiv sigma1 sigma2 z orc w1.step hs
    (update_outcome_dists w1).space_bodies (update_outcome_dists w2).space_bodies
    hu.space_forall
  refine ⟨?_, hu.walls_eq, hu.static_eq, hu.bodies_eq, hu.shapes_eq, ?_,
    hu.path_rec_eq, hu.outcome_rec_eq, ?_⟩
  · show (update_outcome_dists w1).step + 1 = (update_outcome_dists w2).step + 1
    rw [hu.step_eq]
  · show ({ (update_outcome_dists w1).events with
        collisions := (update_outcome_dists w1).events.collisions
          ++ ((space_step sigma1 z orc (update_outcome_dists w1).step
              (update_outcome_dists w1).space_bodies).2.1.map
            (fun p => ⟨p, (update_outcome_dists w1).step⟩)),
        wall_bounces := (update_outcome_dists w1).events.wall_bounces
          ++ ((space_step sigma1 z orc (update_outcome_dists w1).step
              (update_outcome_dists w1).space_bodies).2.2.map
            (fun p => ⟨p, (update_outcome_dists w1).step⟩)) } : Events)
      = { (update_outcome_dists w2).events with
        collisions := (update_outcome_dists w2).events.collisions
          ++ ((space_step sigma2 z orc (update_outcome_dists w2).step
              (update_outcome_dists w2).space_bodies).2.1.map
            (fun p => ⟨p, (update_outcome_dists w2).step⟩)),
        wall_bounces := (update_outcome_dists w2).events.wall_bounces
          ++ ((space_step sigma2 z orc (update_outcome_dists w2).step
              (update_outcome_dists w2).space_bodies).2.2.map
            (fun p => ⟨p, (update_outcome_dists w2).step⟩)) }
    have hstep : (update_outcome_dists w1).step = (update_outcome_dists w2).step :=
      hu.step_eq
    have hcontacts : (space_step sigma1 z orc (update_outcome_dists w1).step
          (update_outcome_dists w1).space_bodies).2
        = (space_step sigma2 z orc (update_outcome_dists w2).step
          (update_outcome_dists w2).space_bodies).2 := by
      rw [← hstep]
      exact hsp.2
    rw [hcontacts, hu.events_eq, hstep]
  · show List.Forall₂ (BodyEquiv sigma1 sigma2)
      (space_step sigma1 z orc (update_outcome_dists w1).step
        (update_outcome_dists w1).space_bodies).1
      (space_step sigma2 z orc (update_outcome_dists w2).step
        (update_outcome_dists w2).space_bodies).1
    rw [← hu.step_eq]
    exact hsp.1

theorem simulate_loop_equiv (sigma1 sigma2 : ℚ) (z : ℕ → ℕ → ℚ × ℚ) (orc : PhysOracle) :
    ∀ (fuel : ℕ) (w1 w2 : World) (paths : List (String × PathRec)),
      WorldEquiv sigma1 sigma2 w1 w2 →
      (simulate_loop sigma1 z orc fuel w1 paths).2
          = (simulate_loop sigma2 z orc fuel w2 paths).2 ∧
        WorldEquiv sigma1 sigma2 (simulate_loop sigma1 z orc fuel w1 paths).1
          (simulate_loop sigma2 z orc fuel w2 paths).1 := by
  intro fuel
  induction fuel with
  | zero => intro w1 w2 paths h; exact ⟨rfl, h⟩
  | succ k ih =>
    intro w1 w2 paths h
    by_cases hs : w1.step ≤ step_max
    · have hs2 : w2.step ≤ step_max := h.step_eq ▸ hs
      rw [simulate_loop_body_step sigma1 z orc k w1 paths hs,
        simulate_loop_body_step sigma2 z orc k w2 paths hs2,
        show record_paths w2 paths = record_paths w1 paths from
          (record_paths_equiv sigma1 sigma2 w1 w2 h paths).symm]
      exact ih _ _ _ (loop_body_equiv sigma1 sigma2 z orc w1 w2 h hs)
    · have hs2 : ¬ w2.step ≤ step_max := h.step_eq ▸ hs
      rw [simulate_loop_stop sigma1 z orc k w1 paths hs,
        simulate_loop_stop sigma2 z orc k w2 paths hs2]
      exact ⟨rfl, h⟩

theorem classify_outcomes_events_eq (sigma1 sigma2 : ℚ) (L1 L2 : World)
    (h : WorldEquiv sigma1 sigma2 L1 L2) :
    (classify_outcomes L1).events = (classify_outcomes L2).events := by
  simp only [classify_outcomes]
  rw [h.events_eq, h.outcome_rec_eq]
  congr 1
  apply List.foldl_ext
  intro acc bname hmem
  rw [(findBody_equiv sigma1 sigma2 L1 L2 h bname).pos_eq]

theorem simulate_equiv (sigma1 sigma2 : ℚ) (z : ℕ → ℕ → ℚ × ℚ) (orc : PhysOracle)
    (w1 w2 : World) (h : WorldEquiv sigma1 sigma2 w1 w2) :
    simulate sigma1 z orc w1 = simulate sigma2 z orc w2 := by
  show ((classify_outcomes (simulate_loop sigma1 z orc (step_max + 1)
        (init_outcome_dists w1)
        (w1.path_record_bodies.foldl
          (fun acc bname => dictInsert bname (PathRec.mk [] []) acc) [])).1).events,
      (simulate_loop sigma1 z orc (step_max + 1) (init_outcome_dists w1)
        (w1.path_record_bodies.foldl
          (fun acc bname => dictInsert bname (PathRec.mk [] []) acc) [])).2)
    = ((classify_outcomes (simulate_loop sigma2 z orc (step_max + 1)
        (init_outcome_dists w2)
        (w2.path_record_bodies.foldl
          (fun acc bname => dictInsert bname (PathRec.mk [] []) acc) [])).1).events,
      (simulate_loop sigma2 z orc (step_max + 1) (init_outcome_dists w2)
        (w2.path_record_bodies.foldl
          (fun acc bname => dictInsert bname (PathRec.mk [] []) acc) [])).2)
  rw [show w2.path_record_bodies = w1.path_record_bodies from h.path_rec_eq.symm]
  have hloop := simulate_loop_equiv sigma1 sigma2 z orc (step_max + 1)
    (init_outcome_dists w1) (init_outcome_dists w2)
    (w1.path_record_bodies.foldl
      (fun acc bname => dictInsert bname (PathRec.mk [] []) acc) [])
    (init_outcome_dists_equiv sigma1 sigma2 w1 w2 h)
  rw [hloop.1, classify_outcomes_events_eq sigma1 sigma2 _ _ hloop.2]

theorem mkMarbleBody_equiv (sigma1 sigma2 : ℚ) (p q : String × MarbleSpec)
    (h : PairEquiv sigma1 sigma2 p q) :
    BodyEquiv sigma1 sigma2
      (mkMarbleBody p.2.position p.2.velocity p.1 p.2.delay p.2.noisy)
      (mkMarbleBody q.2.position q.2.velocity q.1 q.2.delay q.2.noisy) := by
  refine ⟨h.name_eq, ?_, rfl, rfl, rfl, rfl, rfl, rfl, rfl, ?_, h.delay_cond,
    h.noisy_cond⟩
  · show p.2.position = q.2.position
    exact h.pos_eq
  · show p.2.velocity = q.2.velocity
    exact h.vel_eq

theorem forall₂_map_mk (sigma1 sigma2 : ℚ) :
    ∀ ms1 ms2, List.Forall₂ (PairEquiv sigma1 sigma2) ms1 ms2 →
      List.Forall₂ (BodyEquiv sigma1 sigma2)
        (ms1.map (fun nm => mkMarbleBody nm.2.position nm.2.velocity nm.1 nm.2.delay nm.2.noisy))
        (ms2.map (fun nm => mkMarbleBody nm.2.position nm.2.velocity nm.1 nm.2.delay nm.2.noisy)) := by
  intro ms1 ms2 h
  induction h with
  | nil => exact List.Forall₂.nil
  | @cons a b t1 t2 hab hrest ih =>
    exact List.Forall₂.cons (mkMarbleBody_equiv sigma1 sigma2 a b hab) ih

theorem foldl_add_marble_registry (sigma1 sigma2 : ℚ) :
    ∀ ms1 ms2, List.Forall₂ (PairEquiv sigma1 sigma2) ms1 ms2 →
      ∀ w1 w2 : World, w1.bodies = w2.bodies → w1.shapes = w2.shapes →
        w1.space_bodies.length = w2.space_bodies.length →
        ((ms1.foldl (fun w nm =>
            add_marble w nm.2.position nm.2.velocity nm.1 nm.2.delay nm.2.noisy) w1).bodies
          = (ms2.foldl (fun w nm =>
            add_marble w nm.2.position nm.2.velocity nm.1 nm.2.delay nm.2.noisy) w2).bodies ∧
         (ms1.foldl (fun w nm =>
            add_marble w nm.2.position nm.2.velocity nm.1 nm.2.delay nm.2.noisy) w1).shapes
          = (ms2.foldl (fun w nm =>
            add_marble w nm.2.position nm.2.velocity nm.1 nm.2.delay nm.2.noisy) w2).shapes) := by
  intro ms1 ms2 h
  induction h with
  | nil => intro w1 w2 hb hs hl; exact ⟨hb, hs⟩
  | @cons a b t1 t2 hab hrest ih =>
    intro w1 w2 hb hs hl
    simp only [List.foldl_cons]
    refine ih _ _ ?_ ?_ ?_
    · show dictInsert a.1 w1.space_bodies.length w1.bodies
        = dictInsert b.1 w2.space_bodies.length w2.bodies
      rw [hab.name_eq, hl, hb]
    · show dictInsert a.1 w1.space_bodies.length w1.shapes
        = dictInsert b.1 w2.space_bodies.length w2.shapes
      rw [hab.name_eq, hl, hs]
    · show (w1.space_bodies
          ++ [mkMarbleBody a.2.position a.2.velocity a.1 a.2.delay a.2.noisy]).length
        = (w2.space_bodies
          ++ [mkMarbleBody b.2.position b.2.velocity b.1 b.2.delay b.2.noisy]).length
      simp [hl]

theorem init_equiv (sigma1 sigma2 : ℚ) (ms1 ms2 : List (String × MarbleSpec))
    (h : List.Forall₂ (PairEquiv sigma1 sigma2) ms1 ms2)
    (ew : List WallSpec) (pr orr : List String) :
    WorldEquiv sigma1 sigma2 (MarbleWorld_init ms1 ew pr orr)
      (MarbleWorld_init ms2 ew pr orr) := by
  have hreg := foldl_add_marble_registry sigma1 sigma2 ms1 ms2 h
    (((default_walls ++ ew).foldl
      (fun w wall =>
        if wall.name ≠ "exit" then add_wall w wall.position wall.length wall.height wall.name
        else w))
      { step := 0, walls := default_walls ++ ew, space_static := [], space_bodies := [],
        bodies := [], shapes := [], events := ⟨[], [], [], []⟩,
        path_record_bodies := pr, outcome_record_bodies := orr })
    (((default_walls ++ ew).foldl
      (fun w wall =>
        if wall.name ≠ "exit" then add_wall w wall.position wall.length wall.height wall.name
        else w))
      { step := 0, walls := default_walls ++ ew, space_static := [], space_bodies := [],
        bodies := [], shapes := [], events := ⟨[], [], [], []⟩,
        path_record_bodies := pr, outcome_record_bodies := orr })
    rfl rfl rfl
  refine ⟨?_, ?_, ?_, ?_, ?_, ?_, ?_, ?_, ?_⟩
  · rw [(init_const ms1 ew pr orr).1, (init_const ms2 ew pr orr).1]
  · rw [(init_const ms1 ew pr orr).2.2.2.2, (init_const ms2 ew pr orr).2.2.2.2]
  · rw [init_space_static, init_space_static]
  · show (MarbleWorld_init ms1 ew pr orr).bodies = (MarbleWorld_init ms2 ew pr orr).bodies
    simp only [MarbleWorld_init]
    exact hreg.1
  · show (MarbleWorld_init ms1 ew pr orr).shapes = (MarbleWorld_init ms2 ew pr orr).shapes
    simp only [MarbleWorld_init]
    exact hreg.2
  · rw [(init_const ms1 ew pr orr).2.1, (init_const ms2 ew pr orr).2.1]
  · rw [(init_const ms1 ew pr orr).2.2.1, (init_const ms2 ew pr orr).2.2.1]
  · rw [(init_const ms1 ew pr orr).2.2.2.1, (init_const ms2 ew pr orr).2.2.2.1]
  · rw [init_space_bodies, init_space_bodies]
    exact forall₂_map_mk sigma1 sigma2 ms1 ms2 h

theorem forall₂_pair_refl (sigma1 sigma2 : ℚ) :
    ∀ ms : List (String × MarbleSpec), (∀ p ∈ ms, OutOfRange p.2.noisy) →
      List.Forall₂ (PairEquiv sigma1 sigma2) ms ms := by
  intro ms
  induction ms with
  | nil => intro h; exact List.Forall₂.nil
  | cons p ps ih =>
    intro h
    refine List.Forall₂.cons ?_ (ih fun q hq => h q (List.mem_cons_of_mem p hq))
    exact ⟨rfl, rfl, rfl, Or.inl rfl,
      Or.inr ⟨h p (List.mem_cons_self p ps), h p (List.mem_cons_self p ps)⟩⟩

/-- Claim C7: a marble whose `launch_step` or `noise_step` lies outside
`[0, step_max]` (including the sentinel -1) causes no error — construction and
simulation are total — and the action never fires: every run whose marble
schedules differ only in such never-firing steps (in particular, an
out-of-range step versus the disabling sentinel -1, i.e. the action being
absent) produces identical observable outputs, for every physics oracle and
noise stream; moreover the launch and noise branches of `delayed_velocity`
are the identity at every step of the horizon when their scheduled step is out
of range. -/
theorem claim_C7 (sigma : ℚ) (z : ℕ → ℕ → ℚ × ℚ) (orc : PhysOracle)
    (ms1 ms2 : List (String × MarbleSpec)) (ew : List WallSpec) (pr orr : List String)
    (h : List.Forall₂ (PairEquiv sigma sigma) ms1 ms2) :
    simulate sigma z orc (MarbleWorld_init ms1 ew pr orr)
      = simulate sigma z orc (MarbleWorld_init ms2 ew pr orr) ∧
    (∀ d : ℤ, OutOfRange d → ∀ s : ℕ, s ≤ step_max → ∀ (lv : Vec2) (v : Vec2),
        apply_launch_impulse lv d s v = v) ∧
    (∀ ny : ℤ, OutOfRange ny → ∀ s : ℕ, s ≤ step_max → ∀ (sg : ℚ) (zz : ℚ × ℚ) (v : Vec2),
        apply_velocity_noise sg zz ny s v = v) := by
  refine ⟨simulate_equiv sigma sigma z orc _ _ (init_equiv sigma sigma ms1 ms2 h ew pr orr),
    ?_, ?_⟩
  · intro d hd s hs lv v
    unfold apply_launch_impulse
    rw [if_neg (out_of_range_ne s hs d hd)]
  · intro ny hny s hs sg zz v
    unfold apply_velocity_noise
    rw [if_neg (out_of_range_ne s hs ny hny)]

theorem claim_C7_witness :
    List.Forall₂ (PairEquiv 0 0) [("m", specOOR)] [("m", specAbsent)] ∧
    (simulate 0 z0 orc0 (MarbleWorld_init [("m", specOOR)] [] ["m"] [])
        = simulate 0 z0 orc0 (MarbleWorld_init [("m", specAbsent)] [] ["m"] []) ∧
      (∀ d : ℤ, OutOfRange d → ∀ s : ℕ, s ≤ step_max → ∀ (lv : Vec2) (v : Vec2),
          apply_launch_impulse lv d s v = v) ∧
      (∀ ny : ℤ, OutOfRange ny → ∀ s : ℕ, s ≤ step_max →
          ∀ (sg : ℚ) (zz : ℚ × ℚ) (v : Vec2),
          apply_velocity_noise sg zz ny s v = v)) := by
  have hpe : PairEquiv 0 0 ("m", specOOR) ("m", specAbsent) := by
    refine ⟨rfl, rfl, rfl, Or.inr ⟨?_, ?_⟩, Or.inr ⟨?_, ?_⟩⟩
    · unfold OutOfRange
      right
      rw [step_max_eq]
      decide
    · unfold OutOfRange
      left
      decide
    · unfold OutOfRange
      left
      decide
    · unfold OutOfRange
      left
      decide
  have hf : List.Forall₂ (PairEquiv 0 0) [("m", specOOR)] [("m", specAbsent)] :=
    List.Forall₂.cons hpe List.Forall₂.nil
  exact ⟨hf, claim_C7 0 z0 orc0 [("m", specOOR)] [("m", specAbsent)] [] ["m"] [] hf⟩

/-- Claim C9 (amended): `velocity_noise` is not copied at world construction —
`delayed_velocity` reads the shared class attribute at simulation time, so two
identically configured worlds produce identical observable outputs only as
long as the ambient `velocity_noise` value is the same when each is simulated.
Runs whose marbles have no in-range `noise_step` never consult the attribute
and are identical under any two ambient values; a run with an in-range
`noise_step` observes the ambient value at simulation time, so mutating the
class attribute between construction and simulation changes its output (see
the counterexample). -/
theorem claim_C9 (sigma1 sigma2 : ℚ) (z : ℕ → ℕ → ℚ × ℚ) (orc : PhysOracle)
    (ms : List (String × MarbleSpec)) (ew : List WallSpec) (pr orr : List String)
    (h : ∀ p ∈ ms, OutOfRange p.2.noisy) :
    simulate sigma1 z orc (MarbleWorld_init ms ew pr orr)
      = simulate sigma2 z orc (MarbleWorld_init ms ew pr orr) :=
  simulate_equiv sigma1 sigma2 z orc _ _
    (init_equiv sigma1 sigma2 ms ms (forall₂_pair_refl sigma1 sigma2 ms h) ew pr orr)

theorem claim_C9_witness :
    (∀ p ∈ [("m", specNoiseOff)], OutOfRange p.2.noisy) ∧
    simulate 0 z0 orc0 (MarbleWorld_init [("m", specNoiseOff)] [] ["m"] [])
      = simulate 1 z0 orc0 (MarbleWorld_init [("m", specNoiseOff)] [] ["m"] []) := by
  have h : ∀ p ∈ [("m", specNoiseOff)], OutOfRange p.2.noisy := by
    intro p hp
    rw [List.mem_singleton.mp hp]
    unfold OutOfRange
    left
    decide
  exact ⟨h, claim_C9 0 1 z0 orc0 [("m", specNoiseOff)] [] ["m"] [] h⟩

end MarbleWorld
